import Mathlib

/-!
Shallow embedding of the thread-coordination layer of an embeddable
interpreter runtime (`src/v8threads.cc`, `src/regexp-stack.cc`,
`src/v8-global-context.h`).  OS threads are identified by natural numbers,
`ThreadState` objects live in a heap indexed by natural addresses, and the
two circular doubly linked lists (free and in-use) are represented by their
sentinel anchors at addresses 0 and 1 together with explicit `next`/`prev`
pointer fields.  Subsystem `Archive`/`Restore` calls are recorded as events
in a trace so that claims about which subsystem functions run can be
stated and settled.
-/

namespace V8Threads

/-- Modelled from the spec: `ThreadManager::kInvalidId` is declared in
`v8threads.h`, which is not among the sources; the spec fixes 0 as the
unset/invalid sentinel ("integer id (valid range ≥ 1; 0/invalid
sentinel)"). -/
def kInvalidId : Nat := 0

/-- One `ThreadState` object (`v8threads.cc:208`): forward/backward links,
the integer id, the terminate-on-restore flag, and the archive buffer.
The buffer contents are abstracted to `Option Nat`: `none` means the
buffer has never been written by `EagerlyArchiveThread`, `some v` means it
holds the snapshot `v` of the context's live subsystem state. -/
structure Node where
  next : Nat
  prev : Nat
  id : Nat
  terminateOnRestore : Bool
  data : Option Nat
deriving DecidableEq

/-- address of `free_anchor_` (`ThreadManagerData`, `v8threads.cc:268`). -/
def freeAnchor : Nat := 0

/-- address of `in_use_anchor_` (`ThreadManagerData`, `v8threads.cc:269`). -/
def inUseAnchor : Nat := 1

/-- a freshly constructed `ThreadState` (`v8threads.cc:208`): linked to
itself, invalid id, terminate flag clear, buffer unwritten. -/
def freshNode (a : Nat) : Node :=
  { next := a, prev := a, id := kInvalidId, terminateOnRestore := false, data := none }

/-- the `ThreadManagerData` of one context (`v8threads.cc:259`), together
with the thread-local-storage maps behind `thread_state_key_` and
`thread_id_key_` and an abstract `live` value standing for the context's
current live per-subsystem state. -/
structure TMState where
  lastId : Nat
  osMutex : Option Nat
  mutexOwner : Option Nat
  lazilyArchivedThread : Option Nat
  lazilyArchivedThreadState : Option Nat
  nodes : Nat → Node
  alloc : Nat
  threadStateTLS : Nat → Option Nat
  threadIdTLS : Nat → Option Nat
  live : Nat
  v8Running : Bool
  active : Bool

/-- update one node of the heap. -/
def setNode (s : TMState) (n : Nat) (f : Node → Node) : TMState :=
  { s with nodes := Function.update s.nodes n (f (s.nodes n)) }

/-- the state right after `ThreadManagerData::ThreadManagerData()`
(`v8threads.cc:259`): id counter 0, mutex unheld, owner invalid, lazy slot
empty, both anchors freshly allocated and self-linked, TLS maps empty. -/
def initState : TMState :=
  { lastId := 0
    osMutex := none
    mutexOwner := none
    lazilyArchivedThread := none
    lazilyArchivedThreadState := none
    nodes := fun n => freshNode n
    alloc := 2
    threadStateTLS := fun _ => none
    threadIdTLS := fun _ => none
    live := 0
    v8Running := false
    active := false }

/-- `ThreadManager::Lock` (`v8threads.cc:178`): acquire the OS mutex
(modelled at the instant the blocking acquire succeeds) and record the
acquiring thread as owner (`mutex_owner_.Initialize(ThreadHandle::SELF)`). -/
def Lock (s : TMState) (t : Nat) : TMState :=
  { s with osMutex := some t, mutexOwner := some t }

/-- `ThreadManager::Unlock` (`v8threads.cc:186`): reset the owner record to
invalid, then release the OS mutex. -/
def Unlock (s : TMState) : TMState :=
  { s with mutexOwner := none, osMutex := none }

/-- `ThreadManager::IsLockedByCurrentThread` for thread `t`: the owner
record equals the calling thread's identity (`Locker::IsLocked`,
`v8threads.cc:76`). -/
def IsLockedByCurrentThread (s : TMState) (t : Nat) : Bool :=
  s.mutexOwner == some t

/-- `ThreadManager::HasId` (`v8threads.cc:384`). -/
def HasId (s : TMState) (t : Nat) : Bool :=
  (s.threadIdTLS t).isSome

/-- `ThreadManager::CurrentId` (`v8threads.cc:366`); `GetThreadLocalInt`
yields 0 when the slot is unset. -/
def CurrentId (s : TMState) (t : Nat) : Nat :=
  (s.threadIdTLS t).getD 0

/-- `ThreadManager::AssignId` called by thread `t` (`v8threads.cc:372`):
if the thread has no id yet, increment `last_id_` and publish the new id
in thread-local storage. -/
def AssignId (s : TMState) (t : Nat) : TMState :=
  if HasId s t then s
  else
    { s with
        lastId := s.lastId + 1
        threadIdTLS := Function.update s.threadIdTLS t (some (s.lastId + 1)) }

/-- the archivable subsystems, in the order `v8threads.cc` drives them
(`ENABLE_DEBUGGER_SUPPORT` taken as defined). -/
inductive Subsys
  | handleScope
  | top
  | relocatable
  | debug
  | stackGuard
  | regExpStack
  | bootstrapper
deriving DecidableEq

/-- observable events of the thread manager: per-subsystem `Archive` and
`Restore` calls, `StackGuard::InitThread` / `ClearThread`,
`StackGuard::TerminateExecution`, `V8::Initialize`, and
`FreeThreadResources`. -/
inductive Ev
  | subsysArchive (y : Subsys)
  | subsysRestore (y : Subsys)
  | initThread
  | clearThread
  | terminateRequest
  | initV8
  | freeResources
deriving DecidableEq

/-- the call sequence of `ThreadManager::EagerlyArchiveThread`
(`v8threads.cc:299-307`): HandleScopeImplementer, Top, Relocatable, Debug,
StackGuard, RegExpStack, Bootstrapper. -/
def archiveOrder : List Subsys :=
  [.handleScope, .top, .relocatable, .debug, .stackGuard, .regExpStack, .bootstrapper]

/-- the call sequence of the restoring half of `ThreadManager::RestoreThread`
(`v8threads.cc:157-165`): HandleScopeImplementer, Top, Relocatable, Debug,
StackGuard, RegExpStack, Bootstrapper. -/
def restoreOrder : List Subsys :=
  [.handleScope, .top, .relocatable, .debug, .stackGuard, .regExpStack, .bootstrapper]

/-- the two lists of `ThreadState::LinkInto` (`v8threads.cc:225`). -/
inductive WhichList
  | FREE_LIST
  | IN_USE_LIST
deriving DecidableEq

def anchorOf : WhichList → Nat
  | .FREE_LIST => freeAnchor
  | .IN_USE_LIST => inUseAnchor

/-- `ThreadState::Unlink` (`v8threads.cc:219`):
`next_->previous_ = previous_; previous_->next_ = next_;`, statement by
statement, with each field read performed at the program point where the
source reads it. -/
def Unlink (s : TMState) (n : Nat) : TMState :=
  let s1 := setNode s (s.nodes n).next (fun nd => { nd with prev := (s.nodes n).prev })
  setNode s1 (s1.nodes n).prev (fun nd => { nd with next := (s1.nodes n).next })

/-- `ThreadState::LinkInto` (`v8threads.cc:225`): splice `n` in right after
the chosen sentinel anchor, in source statement order. -/
def LinkInto (s : TMState) (list : WhichList) (n : Nat) : TMState :=
  let a := anchorOf list
  let s1 := setNode s n (fun nd => { nd with next := (s.nodes a).next })
  let s2 := setNode s1 n (fun nd => { nd with prev := a })
  let s3 := setNode s2 a (fun nd => { nd with next := n })
  setNode s3 (s3.nodes n).next (fun nd => { nd with prev := n })

/-- `ThreadState::GetFree` (`v8threads.cc:236`): take the free anchor's
successor, or allocate a fresh self-linked `ThreadState` (with its buffer)
when the free list is empty. -/
def GetFree (s : TMState) : Nat × TMState :=
  let gotten := (s.nodes freeAnchor).next
  if gotten = freeAnchor then
    (s.alloc,
     { s with nodes := Function.update s.nodes s.alloc (freshNode s.alloc),
              alloc := s.alloc + 1 })
  else (gotten, s)

/-- `ThreadManager::IsArchived` (`v8threads.cc:325`). -/
def IsArchived (s : TMState) (t : Nat) : Bool :=
  (s.threadStateTLS t).isSome

/-- the two `ASSERT`s guarding `ThreadManager::ArchiveThread`
(`v8threads.cc:277-278`): no thread is lazily archived and the calling
thread is not itself archived. -/
def ArchiveThreadPre (s : TMState) (t : Nat) : Prop :=
  s.lazilyArchivedThread = none ∧ s.threadStateTLS t = none

/-- `ThreadManager::ArchiveThread` called by thread `t` (`v8threads.cc:275`):
obtain a state from the free list, unlink it, store it in thread-local
storage, mark `t` as the lazy-archive candidate and stamp the state with
`t`'s id.  No subsystem call happens, so the trace is empty. -/
def ArchiveThread (s : TMState) (t : Nat) : TMState × List Ev :=
  let p := GetFree s
  let n := p.1
  let s2 := Unlink p.2 n
  let s3 := { s2 with threadStateTLS := Function.update s2.threadStateTLS t (some n) }
  let s4 := { s3 with lazilyArchivedThread := some t }
  let s5 := { s4 with lazilyArchivedThreadState := some n }
  (setNode s5 n (fun nd => { nd with id := CurrentId s5 t }), [])

/-- `ThreadManager::EagerlyArchiveThread` (`v8threads.cc:292`): link the
lazy candidate's state into the in-use list, run every subsystem's
`Archive` over its buffer (serializing the context's live state, which the
subsystem archive functions reset to a fresh value), and clear the lazy
slot.  The `none` case dereferences a null pointer in the source and is
gated out by the callers. -/
def EagerlyArchiveThread (s : TMState) : TMState × List Ev :=
  match s.lazilyArchivedThreadState with
  | none => (s, [])
  | some n =>
    let s1 := LinkInto s .IN_USE_LIST n
    let s2 := setNode s1 n (fun nd => { nd with data := some s1.live })
    let s3 := { s2 with live := 0 }
    ({ s3 with lazilyArchivedThread := none, lazilyArchivedThreadState := none },
     archiveOrder.map Ev.subsysArchive)

/-- the non-lazy tail of `ThreadManager::RestoreThread`
(`v8threads.cc:149-174`), run after any pending eager archive: look up the
caller's Thread State; a brand-new thread just initializes its stack guard
and reports "not restored"; otherwise run every subsystem's `Restore` over
the buffer, clear the thread-local slot, honor (and reset) the
terminate-on-restore flag, reset the id, unlink the state and return it to
the free list. -/
def RestoreThreadTail (s : TMState) (t : Nat) : Bool × TMState × List Ev :=
  match s.threadStateTLS t with
  | none => (false, s, [Ev.initThread])
  | some n =>
    let s2 := { s with live := ((s.nodes n).data).getD 0 }
    let s3 := { s2 with threadStateTLS := Function.update s2.threadStateTLS t none }
    let q :=
      if (s3.nodes n).terminateOnRestore then
        (setNode s3 n (fun nd => { nd with terminateOnRestore := false }),
         [Ev.terminateRequest])
      else (s3, ([] : List Ev))
    let s5 := setNode q.1 n (fun nd => { nd with id := kInvalidId })
    let s6 := Unlink s5 n
    (true, LinkInto s6 .FREE_LIST n,
     restoreOrder.map Ev.subsysRestore ++ q.2)

/-- `ThreadManager::RestoreThread` called by thread `t` (`v8threads.cc:121`):
either reclaim the caller's own lazily archived state straight back onto
the free list (no subsystem call), or force a pending eager archive and
fall through to the non-lazy tail.  Returns the `bool` result, the new
state and the event trace. -/
def RestoreThread (s : TMState) (t : Nat) : Bool × TMState × List Ev :=
  if s.lazilyArchivedThread = some t then
    let s1 := { s with lazilyArchivedThread := none }
    match s1.lazilyArchivedThreadState with
    | none => (true, s1, [])
    | some n =>
      let s2 := setNode s1 n (fun nd => { nd with id := kInvalidId })
      let s3 := LinkInto s2 .FREE_LIST n
      let s4 := { s3 with lazilyArchivedThreadState := none }
      (true, { s4 with threadStateTLS := Function.update s4.threadStateTLS t none }, [])
  else
    let p := if s.lazilyArchivedThread.isSome then EagerlyArchiveThread s else (s, [])
    let r := RestoreThreadTail p.1 t
    (r.1, r.2.1, p.2 ++ r.2.2)

/-- `ThreadManager::FreeThreadResources` (`v8threads.cc:313`): every
subsystem releases the calling thread's live resources; no manager state
changes. -/
def FreeThreadResources (s : TMState) : TMState × List Ev :=
  (s, [Ev.freeResources])

/-- follow `next_` pointers from `start` until the sentinel `a` reappears
(the `FirstInUse`/`Next` traversal pattern, `v8threads.cc:248-256`), with
fuel against malformed cycles. -/
def chase (s : TMState) (a : Nat) : Nat → Nat → List Nat
  | _, 0 => []
  | n, fuel + 1 => if n = a then [] else n :: chase s a (s.nodes n).next fuel

/-- the members of the free list, by pointer traversal from the anchor. -/
def freeListMembers (s : TMState) : List Nat :=
  chase s freeAnchor (s.nodes freeAnchor).next s.alloc

/-- the members of the in-use list, by pointer traversal from the anchor
(the states enumerated by `ThreadState::FirstInUse` / `Next`). -/
def inUseListMembers (s : TMState) : List Nat :=
  chase s inUseAnchor (s.nodes inUseAnchor).next s.alloc

/-- `ThreadManager::TerminateExecution` (`v8threads.cc:390`): walk the
in-use list and set the terminate-on-restore flag on every state whose id
matches.  The walk reads only `next_` pointers, which the flag writes do
not touch, so traversing the member list computed up front is exact. -/
def TerminateExecution (s : TMState) (threadId : Nat) : TMState :=
  (inUseListMembers s).foldl
    (fun acc n =>
      if threadId = (acc.nodes n).id then
        setNode acc n (fun nd => { nd with terminateOnRestore := true })
      else acc)
    s

/-- the `Locker` object's fields (`v8threads.cc:41`). -/
structure Locker where
  has_lock : Bool
  top_level : Bool
deriving DecidableEq

/-- `Locker::Locker` run by thread `t` (`v8threads.cc:41-70`): initialize
`has_lock_ = false`, `top_level_ = true`, set `active_`; if the thread does
not already hold the lock, acquire it, initialize V8 if needed, restore
(marking non-top-level on success) or clear+initialize the stack guard;
finally assign a thread id. -/
def LockerCtor (s : TMState) (t : Nat) : Locker × TMState × List Ev :=
  let l : Locker := { has_lock := false, top_level := true }
  let s0 := { s with active := true }
  if IsLockedByCurrentThread s0 t then
    (l, AssignId s0 t, [])
  else
    let s1 := Lock s0 t
    let p :=
      if s1.v8Running then (s1, ([] : List Ev))
      else ({ s1 with v8Running := true }, [Ev.initV8])
    let r := RestoreThread p.1 t
    if r.1 then
      ({ has_lock := true, top_level := false }, AssignId r.2.1 t, p.2 ++ r.2.2)
    else
      ({ has_lock := true, top_level := true }, AssignId r.2.1 t,
       p.2 ++ r.2.2 ++ [Ev.clearThread, Ev.initThread])

/-- `Locker::~Locker` run by thread `t` (`v8threads.cc:81-91`): only an
instance that actually acquired the lock acts — a top-level one frees the
thread's resources, a nested one lazily archives — and then unlocks. -/
def LockerDtor (s : TMState) (t : Nat) (l : Locker) : TMState × List Ev :=
  if l.has_lock then
    if l.top_level then
      let p := FreeThreadResources s
      (Unlock p.1, p.2)
    else
      let p := ArchiveThread s t
      (Unlock p.1, p.2)
  else (s, [])

/-- `Unlocker::Unlocker` run by thread `t` (`v8threads.cc:94-98`): archive
the current thread (lazily, via `ThreadManager::ArchiveThread`) and release
the lock. -/
def UnlockerCtor (s : TMState) (t : Nat) : TMState × List Ev :=
  let p := ArchiveThread s t
  (Unlock p.1, p.2)

/-- `Unlocker::~Unlocker` run by thread `t` (`v8threads.cc:101-105`):
re-acquire the lock and restore the thread's archived state. -/
def UnlockerDtor (s : TMState) (t : Nat) : TMState × List Ev :=
  let s1 := Lock s t
  let r := RestoreThread s1 t
  (r.2.1, r.2.2)

/-- lock-relevant transitions of a context, over any interleaving of
threads: raw `Lock`/`Unlock` and the four guard constructor/destructor
bodies.  A blocking `Lock` fires only when the OS mutex is free; `Unlock`
and the destructors fire only for the thread that holds the lock, per the
`ASSERT`s in `v8threads.cc:82,95`. -/
inductive LockStep : TMState → TMState → Prop
  | lock (s : TMState) (t : Nat) (h : s.osMutex = none) : LockStep s (Lock s t)
  | unlock (s : TMState) (t : Nat) (h : IsLockedByCurrentThread s t = true) :
      LockStep s (Unlock s)
  | lockerCtor (s : TMState) (t : Nat)
      (h : IsLockedByCurrentThread s t = true ∨ s.osMutex = none) :
      LockStep s (LockerCtor s t).2.1
  | lockerDtor (s : TMState) (t : Nat) (l : Locker)
      (h : IsLockedByCurrentThread s t = true) : LockStep s (LockerDtor s t l).1
  | unlockerCtor (s : TMState) (t : Nat) (h : IsLockedByCurrentThread s t = true) :
      LockStep s (UnlockerCtor s t).1
  | unlockerDtor (s : TMState) (t : Nat) (h : s.osMutex = none) :
      LockStep s (UnlockerDtor s t).1

/-- states of one context reachable by any interleaving of lock
operations. -/
def LockReachable (s : TMState) : Prop :=
  Relation.ReflTransGen LockStep initState s

/-- the last node of the chain `a :: L` (the predecessor of the cycle's
anchor). -/
def lastOf : List Nat → Nat → Nat
  | [], a => a
  | x :: L, _ => lastOf L x

/-- the first node of `L`, or `b` when `L` is empty (the successor of a
chain head). -/
def headOf : List Nat → Nat → Nat
  | [], b => b
  | x :: _, _ => x

/-- a doubly linked chain: following `next` from `a` visits exactly the
nodes of `L` and then reaches `b`, with every `prev` pointer consistent. -/
def dchain (s : TMState) : Nat → List Nat → Nat → Prop
  | a, [], b => (s.nodes a).next = b ∧ (s.nodes b).prev = a
  | a, x :: L, b => (s.nodes a).next = x ∧ (s.nodes x).prev = a ∧ dchain s x L b

/-- a circular doubly linked list anchored at sentinel `a` whose real
members are exactly `L` in order. -/
def dcycle (s : TMState) (a : Nat) (L : List Nat) : Prop :=
  dchain s a L a

/-- every member is a real (non-sentinel) allocated node. -/
def boundedReal (s : TMState) (L : List Nat) : Prop :=
  ∀ n ∈ L, 2 ≤ n ∧ n < s.alloc

/-- structural invariant of the thread manager: the two sentinel-anchored
circular lists with their member lists, disjointness, the lazy-archive
slot's node detached from both lists, every allocated node accounted for,
and thread-local state pointers landing in the in-use list or the lazy
slot. -/
structure Inv (s : TMState) (freeL inUseL : List Nat) : Prop where
  freeCycle : dcycle s freeAnchor freeL
  inUseCycle : dcycle s inUseAnchor inUseL
  allocBound : 2 ≤ s.alloc
  freeBounded : boundedReal s freeL
  inUseBounded : boundedReal s inUseL
  nodup : (freeL ++ inUseL).Nodup
  lazyDetached : ∀ n, s.lazilyArchivedThreadState = some n →
    2 ≤ n ∧ n < s.alloc ∧ n ∉ freeL ∧ n ∉ inUseL
  lazyPaired : s.lazilyArchivedThread.isSome ↔ s.lazilyArchivedThreadState.isSome
  partition : ∀ n, 2 ≤ n → n < s.alloc →
    n ∈ freeL ∨ n ∈ inUseL ∨ s.lazilyArchivedThreadState = some n
  tlsSound : ∀ u m, s.threadStateTLS u = some m →
    m ∈ inUseL ∨ (s.lazilyArchivedThread = some u ∧ s.lazilyArchivedThreadState = some m)
  tlsInj : ∀ u v m, s.threadStateTLS u = some m → s.threadStateTLS v = some m → u = v
  lazyTLS : ∀ t, s.lazilyArchivedThread = some t →
    s.threadStateTLS t = s.lazilyArchivedThreadState

/-- transitions of the archive/restore lifecycle, gated by the `ASSERT`ed
preconditions of the source. -/
inductive TMStep : TMState → TMState → Prop
  | archive (s : TMState) (t : Nat) (h : ArchiveThreadPre s t) :
      TMStep s (ArchiveThread s t).1
  | eager (s : TMState) (h : s.lazilyArchivedThreadState.isSome = true) :
      TMStep s (EagerlyArchiveThread s).1
  | restore (s : TMState) (t : Nat) : TMStep s (RestoreThread s t).2.1

/-- states reachable from a fresh context by archive / eager-archive /
restore operations. -/
def TMReachable (s : TMState) : Prop :=
  Relation.ReflTransGen TMStep initState s

namespace RegExp

/-- `RegExpStackData::ThreadLocal`: the header declaring it is not among
the sources; its fields `memory_`, `memory_size_` and `limit_` are read
off their uses in `regexp-stack.cc`.  Addresses and sizes are naturals. -/
structure ThreadLocal where
  memory : Nat
  memorySize : Nat
  limit : Nat
deriving DecidableEq

/-- a default-constructed `ThreadLocal()` (null memory, zero size). -/
def ThreadLocal.fresh : ThreadLocal :=
  { memory := 0, memorySize := 0, limit := 0 }

/-- Modelled from the spec: `sizeof(RegExpStackData::ThreadLocal)` — the
struct declaration is not among the sources; three word-sized fields at 8
bytes each.  Only the fact that `ArchiveStack` and `RestoreStack` advance
the cursor by this same constant matters to the claims. -/
def kSizeOfThreadLocal : Nat := 24

/-- the context's live `reg_exp_stack_data_.thread_local_` record together
with the archive buffer; the struct-granularity `memcpy` is modelled by
storing the whole record at the byte offset it is copied to. -/
structure Mem where
  threadLocal : ThreadLocal
  buf : Nat → Option ThreadLocal

/-- `RegExpStack::ArchiveStack` (`regexp-stack.cc:52`): copy the live
`thread_local_` record into the buffer at `to`, reset the live record to a
default-constructed one, and return `to + sizeof(ThreadLocal)`. -/
def ArchiveStack (m : Mem) (dst : Nat) : Mem × Nat :=
  ({ threadLocal := ThreadLocal.fresh,
     buf := Function.update m.buf dst (some m.threadLocal) },
   dst + kSizeOfThreadLocal)

/-- `RegExpStack::RestoreStack` (`regexp-stack.cc:64`): copy the record at
`src` back into the live `thread_local_` and return
`src + sizeof(ThreadLocal)`. -/
def RestoreStack (m : Mem) (src : Nat) : Mem × Nat :=
  ({ m with threadLocal := (m.buf src).getD m.threadLocal },
   src + kSizeOfThreadLocal)

end RegExp

namespace CS

/-- position of the `ContextSwitcher::Run` loop (`v8threads.cc:442`):
about to test `keep_going_`, past the sleep and about to call
`StackGuard::Preempt()`, or fallen out of the loop. -/
inductive Pc
  | atCheck
  | atPreempt
  | exited
deriving DecidableEq

/-- one `ContextSwitcher` worker: a generation number distinguishing the
successive workers of one context, `keep_going_`, `sleep_ms_`, and the
loop position. -/
structure Worker where
  gen : Nat
  keepGoing : Bool
  sleepMs : Nat
  pc : Pc
deriving DecidableEq

/-- per-context preemption state: the `singleton_` slot
(`v8threads.cc:410`), the generation counter, and the generations whose
`StopPreemption()` call has returned. -/
structure CSState where
  singleton : Option Worker
  nextGen : Nat
  returned : List Nat
deriving DecidableEq

/-- the fresh context: no worker, nothing stopped. -/
def csInit : CSState :=
  { singleton := none, nextGen := 0, returned := [] }

/-- observable events of the preemption mechanism. -/
inductive CSEv
  | startNew (g ms : Nat)
  | updateInterval (ms : Nat)
  | checkKeepGoing (g : Nat)
  | loopExit (g : Nat)
  | preempt (g : Nat)
  | stopSetFlag (g : Nat)
  | stopJoinReturn (g : Nat)
deriving DecidableEq

/-- labelled transitions.  `StartPreemption` (`v8threads.cc:408`) creates a
worker only when `singleton_ == NULL` and otherwise just updates the
interval; the worker loop (`v8threads.cc:442`) tests `keep_going_`, and if
it holds sleeps and then calls `StackGuard::Preempt()` unconditionally
before looping; `StopPreemption` (`v8threads.cc:425`) clears `keep_going_`
and then joins the worker — the join-and-return transition fires only once
the worker's loop has exited, after which the worker is deleted. -/
inductive CSStep : CSState → CSEv → CSState → Prop
  | startNew (s : CSState) (ms : Nat) (h : s.singleton = none) :
      CSStep s (.startNew s.nextGen ms)
        { s with
            singleton :=
              some { gen := s.nextGen, keepGoing := true, sleepMs := ms, pc := .atCheck },
            nextGen := s.nextGen + 1 }
  | updateInterval (s : CSState) (w : Worker) (ms : Nat) (h : s.singleton = some w) :
      CSStep s (.updateInterval ms) { s with singleton := some { w with sleepMs := ms } }
  | checkTrue (s : CSState) (w : Worker) (h : s.singleton = some w)
      (hc : w.pc = .atCheck) (hk : w.keepGoing = true) :
      CSStep s (.checkKeepGoing w.gen) { s with singleton := some { w with pc := .atPreempt } }
  | checkFalse (s : CSState) (w : Worker) (h : s.singleton = some w)
      (hc : w.pc = .atCheck) (hk : w.keepGoing = false) :
      CSStep s (.loopExit w.gen) { s with singleton := some { w with pc := .exited } }
  | preempt (s : CSState) (w : Worker) (h : s.singleton = some w) (hc : w.pc = .atPreempt) :
      CSStep s (.preempt w.gen) { s with singleton := some { w with pc := .atCheck } }
  | stopSetFlag (s : CSState) (w : Worker) (h : s.singleton = some w) :
      CSStep s (.stopSetFlag w.gen) { s with singleton := some { w with keepGoing := false } }
  | stopJoinReturn (s : CSState) (w : Worker) (h : s.singleton = some w) (hc : w.pc = .exited) :
      CSStep s (.stopJoinReturn w.gen)
        { s with singleton := none, returned := w.gen :: s.returned }

/-- a run of the preemption mechanism, recording events oldest first. -/
inductive CSSteps : CSState → List CSEv → CSState → Prop
  | refl (s : CSState) : CSSteps s [] s
  | snoc (s1 s2 s3 : CSState) (tr : List CSEv) (e : CSEv) :
      CSSteps s1 tr s2 → CSStep s2 e s3 → CSSteps s1 (tr ++ [e]) s3

/-- generation bookkeeping: the live worker's generation is below the
counter, and a generation whose stop has returned is below the counter and
never the live worker's. -/
def CSInv (s : CSState) : Prop :=
  (∀ w, s.singleton = some w → w.gen < s.nextGen) ∧
  (∀ g ∈ s.returned, g < s.nextGen ∧ ∀ w, s.singleton = some w → w.gen ≠ g)

end CS

/-- a concrete run exercising the terminate-on-restore flag: thread 1 gets
id 1, lazily archives, is committed eagerly, and is then named by
`TerminateExecution`. -/
def c10State : TMState :=
  TerminateExecution (EagerlyArchiveThread (ArchiveThread (AssignId initState 1) 1).1).1 1

/-- a concrete regexp-stack memory used to exercise the archive/restore
round trip. -/
def c8Mem : RegExp.Mem :=
  { threadLocal := { memory := 3, memorySize := 5, limit := 7 }, buf := fun _ => none }

theorem setNode_nodes (s : TMState) (n : Nat) (f : Node → Node) (k : Nat) :
    (setNode s n f).nodes k = if k = n then f (s.nodes n) else s.nodes k := by
  simp [setNode, Function.update_apply]

theorem setNode_proj {α : Type} (g : Node → α) (s : TMState) (n : Nat) (f : Node → Node)
    (h : g (f (s.nodes n)) = g (s.nodes n)) (k : Nat) :
    g ((setNode s n f).nodes k) = g (s.nodes k) := by
  rw [setNode_nodes]
  split
  · next heq => rw [heq, h]
  · rfl

theorem Unlink_proj {α : Type} (g : Node → α)
    (hp : ∀ nd v, g { nd with prev := v } = g nd)
    (hn : ∀ nd v, g { nd with next := v } = g nd)
    (s : TMState) (n k : Nat) :
    g ((Unlink s n).nodes k) = g (s.nodes k) := by
  unfold Unlink
  rw [setNode_proj g _ _ _ (hn _ _), setNode_proj g _ _ _ (hp _ _)]

theorem LinkInto_proj {α : Type} (g : Node → α)
    (hp : ∀ nd v, g { nd with prev := v } = g nd)
    (hn : ∀ nd v, g { nd with next := v } = g nd)
    (s : TMState) (list : WhichList) (n k : Nat) :
    g ((LinkInto s list n).nodes k) = g (s.nodes k) := by
  unfold LinkInto
  rw [setNode_proj g _ _ _ (hp _ _), setNode_proj g _ _ _ (hn _ _),
    setNode_proj g _ _ _ (hp _ _), setNode_proj g _ _ _ (hn _ _)]

/-- Claim C1: `Lock()` records the acquiring thread as mutex owner,
`Unlock()` resets the record to invalid, and over every interleaving of
`Lock`, `Unlock` and Locker/Unlocker construction/destruction, at most one
thread observes `IsLockedByCurrentThread() == true` at any instant. -/
theorem C1_lock_owner_unique :
    (∀ s t, (Lock s t).mutexOwner = some t) ∧
    (∀ s, (Unlock s).mutexOwner = none) ∧
    (∀ s t1 t2, LockReachable s →
      IsLockedByCurrentThread s t1 = true →
      IsLockedByCurrentThread s t2 = true → t1 = t2) := by
  refine ⟨fun s t => rfl, fun s => rfl, fun s t1 t2 _ h1 h2 => ?_⟩
  simp only [IsLockedByCurrentThread, beq_iff_eq] at h1 h2
  rw [h1] at h2
  exact Option.some.inj h2

theorem C1_lock_owner_unique_witness : (5 : Nat) = 5 :=
  C1_lock_owner_unique.2.2 (Lock initState 5) 5 5
    (Relation.ReflTransGen.single (LockStep.lock initState 5 rfl))
    (by decide) (by decide)

/-- Claim C6: `AssignId`, called with the lock held, assigns an id only to
a thread that has none yet; ids are allocated sequentially starting at 1
(0 being the unset sentinel): threads T1, T2, T3 calling `AssignId` in
that order on one context receive 1, 2, 3, and a repeated call by a thread
that already has an id changes nothing. -/
theorem C6_assign_id :
    (∀ s t, HasId s t = true → AssignId s t = s) ∧
    (∀ s t, IsLockedByCurrentThread s t = true → HasId s t = false →
      (AssignId s t).threadIdTLS t = some (s.lastId + 1) ∧
      (AssignId s t).lastId = s.lastId + 1) ∧
    (∀ t1 t2 t3, t1 ≠ t2 → t1 ≠ t3 → t2 ≠ t3 →
      (AssignId (Lock (Unlock (AssignId (Lock (Unlock (AssignId (Lock initState t1) t1))
          t2) t2)) t3) t3).threadIdTLS t1 = some 1 ∧
      (AssignId (Lock (Unlock (AssignId (Lock (Unlock (AssignId (Lock initState t1) t1))
          t2) t2)) t3) t3).threadIdTLS t2 = some 2 ∧
      (AssignId (Lock (Unlock (AssignId (Lock (Unlock (AssignId (Lock initState t1) t1))
          t2) t2)) t3) t3).threadIdTLS t3 = some 3) := by
  refine ⟨fun s t h => by simp [AssignId, h], fun s t _ h => ?_, fun t1 t2 t3 h12 h13 h23 => ?_⟩
  · constructor
    · simp [AssignId, h]
    · simp [AssignId, h]
  · simp [AssignId, HasId, Lock, Unlock, initState, Function.update_apply,
      h12, h13, h23, h12.symm, h13.symm, h23.symm]

theorem C6_assign_id_witness :
    (AssignId (Lock (Unlock (AssignId (Lock (Unlock (AssignId (Lock initState 10) 10))
        20) 20)) 30) 30).threadIdTLS 10 = some 1 ∧
    (AssignId (Lock (Unlock (AssignId (Lock (Unlock (AssignId (Lock initState 10) 10))
        20) 20)) 30) 30).threadIdTLS 20 = some 2 ∧
    (AssignId (Lock (Unlock (AssignId (Lock (Unlock (AssignId (Lock initState 10) 10))
        20) 20)) 30) 30).threadIdTLS 30 = some 3 :=
  C6_assign_id.2.2 10 20 30 (by decide) (by decide) (by decide)

/-- Claim C5 counterexample: a Locker constructed by a thread that already
holds the lock keeps `top_level_` equal to `true` — it is not "marked
non-top-level" as the claim states; `has_lock_` stays `false` and no
restore or initialization event is emitted. -/
theorem C5_counterexample :
    (LockerCtor (Lock initState 1) 1).1.has_lock = false ∧
    (LockerCtor (Lock initState 1) 1).1.top_level = true ∧
    ¬ (LockerCtor (Lock initState 1) 1).1.top_level = false ∧
    (LockerCtor (Lock initState 1) 1).2.2 = [] := by
  decide

/-- Claim C5 (amended): if a thread that already holds the lock constructs
a Locker, the new Locker records that it did not itself acquire the lock
(`has_lock_` stays false), keeps `top_level_` equal to `true` (it is set
to false only when the Locker itself acquired the lock and `RestoreThread`
returned true), and performs no restore of archived state and no fresh
stack-guard initialization — the constructor only sets the `active_` flag
and assigns a thread id. -/
theorem C5_nested_locker (s : TMState) (t : Nat)
    (h : IsLockedByCurrentThread s t = true) :
    LockerCtor s t =
      ({ has_lock := false, top_level := true },
       AssignId { s with active := true } t, []) := by
  have h' : IsLockedByCurrentThread { s with active := true } t = true := h
  simp [LockerCtor, h']

theorem C5_nested_locker_witness :
    LockerCtor (Lock initState 3) 3 =
      ({ has_lock := false, top_level := true },
       AssignId { Lock initState 3 with active := true } 3, []) :=
  C5_nested_locker (Lock initState 3) 3 (by decide)

theorem ArchiveThread_trace (s : TMState) (t : Nat) : (ArchiveThread s t).2 = [] := rfl

theorem ArchiveThread_lazy (s : TMState) (t : Nat) :
    (ArchiveThread s t).1.lazilyArchivedThread = some t := rfl

theorem ArchiveThread_lazyState (s : TMState) (t : Nat) :
    (ArchiveThread s t).1.lazilyArchivedThreadState = some (GetFree s).1 := rfl

theorem ArchiveThread_tls_self (s : TMState) (t : Nat) :
    (ArchiveThread s t).1.threadStateTLS t = some (GetFree s).1 := by
  simp [ArchiveThread, setNode]

theorem ArchiveThread_data (s : TMState) (t k : Nat) :
    ((ArchiveThread s t).1.nodes k).data = (((GetFree s).2).nodes k).data := by
  simp only [ArchiveThread]
  rw [setNode_proj Node.data _ _ _ rfl]
  exact Unlink_proj Node.data (fun _ _ => rfl) (fun _ _ => rfl) _ _ _

/-- Claim C3 counterexample: at a concrete locked state, constructing an
Unlocker emits no subsystem `Archive` event at all, leaves the obtained
Thread State's buffer unwritten and the in-use list empty, and merely
marks the thread as the lazy-archive candidate — refuting the claim that
every registered subsystem's `Archive` runs before the constructor
returns. -/
theorem C3_counterexample :
    (UnlockerCtor (Lock initState 1) 1).2 = [] ∧
    Ev.subsysArchive Subsys.top ∉ (UnlockerCtor (Lock initState 1) 1).2 ∧
    ((UnlockerCtor (Lock initState 1) 1).1.nodes 2).data = none ∧
    inUseListMembers (UnlockerCtor (Lock initState 1) 1).1 = [] ∧
    (UnlockerCtor (Lock initState 1) 1).1.lazilyArchivedThread = some 1 := by
  decide

/-- Claim C3 (amended): constructing an Unlocker, with the lock held by the
calling thread (and `ArchiveThread`'s asserted preconditions) as
precondition, archives the current thread LAZILY — it obtains a Thread
State, records it in thread-local storage, marks the thread as the
outstanding lazy-archive candidate, and runs no subsystem `Archive` (the
buffer is untouched; subsystem data is written only if a later operation
forces `EagerlyArchiveThread`) — and then releases the global lock. -/
theorem C3_unlocker_lazy (s : TMState) (t : Nat)
    (hl : IsLockedByCurrentThread s t = true) (hp : ArchiveThreadPre s t) :
    (UnlockerCtor s t).2 = [] ∧
    (UnlockerCtor s t).1.lazilyArchivedThread = some t ∧
    (UnlockerCtor s t).1.lazilyArchivedThreadState = some (GetFree s).1 ∧
    (UnlockerCtor s t).1.threadStateTLS t = some (GetFree s).1 ∧
    ((UnlockerCtor s t).1.nodes (GetFree s).1).data
      = (((GetFree s).2).nodes (GetFree s).1).data ∧
    (UnlockerCtor s t).1.mutexOwner = none ∧
    (UnlockerCtor s t).1.osMutex = none := by
  refine ⟨rfl, rfl, rfl, ?_, ?_, rfl, rfl⟩
  · exact ArchiveThread_tls_self s t
  · exact ArchiveThread_data s t (GetFree s).1

theorem C3_unlocker_lazy_witness :
    (UnlockerCtor (Lock initState 1) 1).2 = [] ∧
    (UnlockerCtor (Lock initState 1) 1).1.lazilyArchivedThread = some 1 ∧
    (UnlockerCtor (Lock initState 1) 1).1.lazilyArchivedThreadState
      = some (GetFree (Lock initState 1)).1 ∧
    (UnlockerCtor (Lock initState 1) 1).1.threadStateTLS 1
      = some (GetFree (Lock initState 1)).1 ∧
    ((UnlockerCtor (Lock initState 1) 1).1.nodes (GetFree (Lock initState 1)).1).data
      = (((GetFree (Lock initState 1)).2).nodes (GetFree (Lock initState 1)).1).data ∧
    (UnlockerCtor (Lock initState 1) 1).1.mutexOwner = none ∧
    (UnlockerCtor (Lock initState 1) 1).1.osMutex = none :=
  C3_unlocker_lazy (Lock initState 1) 1 (by decide) (by constructor <;> rfl)

theorem terminate_foldl_id (tid : Nat) (l : List Nat) :
    ∀ s : TMState, (∀ n ∈ l, (s.nodes n).id ≠ tid) →
      l.foldl (fun acc n =>
        if tid = (acc.nodes n).id then
          setNode acc n (fun nd => { nd with terminateOnRestore := true })
        else acc) s = s := by
  induction l with
  | nil => intro s _; rfl
  | cons a l ih =>
    intro s h
    have ha : ¬ tid = (s.nodes a).id := fun hc => h a (List.mem_cons_self a l) hc.symm
    simp only [List.foldl_cons, if_neg ha]
    exact ih s fun n hn => h n (List.mem_cons_of_mem a hn)

theorem RestoreThread_noLazy (s : TMState) (t : Nat)
    (h0 : s.lazilyArchivedThread = none) :
    RestoreThread s t = RestoreThreadTail s t := by
  have hne : ¬ s.lazilyArchivedThread = some t := by
    rw [h0]; exact fun hc => Option.noConfusion hc
  unfold RestoreThread
  rw [if_neg hne, h0]
  simp

theorem RestoreThread_forceEager (s : TMState) (t : Nat)
    (hs : s.lazilyArchivedThread.isSome = true)
    (hnself : ¬ s.lazilyArchivedThread = some t) :
    RestoreThread s t =
      ((RestoreThreadTail (EagerlyArchiveThread s).1 t).1,
       (RestoreThreadTail (EagerlyArchiveThread s).1 t).2.1,
       (EagerlyArchiveThread s).2 ++ (RestoreThreadTail (EagerlyArchiveThread s).1 t).2.2) := by
  unfold RestoreThread
  rw [if_neg hnself, if_pos hs]

theorem RestoreThreadTail_term (s : TMState) (t m : Nat)
    (hm : s.threadStateTLS t = some m)
    (hterm : (s.nodes m).terminateOnRestore = true) :
    (RestoreThreadTail s t).1 = true ∧
    (RestoreThreadTail s t).2.2 = restoreOrder.map Ev.subsysRestore ++ [Ev.terminateRequest] ∧
    ((RestoreThreadTail s t).2.1.nodes m).terminateOnRestore = false ∧
    (RestoreThreadTail s t).2.1.threadStateTLS t = none := by
  unfold RestoreThreadTail
  rw [hm]
  simp only [hterm, if_true]
  refine ⟨by trivial, by trivial, ?_, ?_⟩
  · rw [LinkInto_proj Node.terminateOnRestore (fun _ _ => rfl) (fun _ _ => rfl),
      Unlink_proj Node.terminateOnRestore (fun _ _ => rfl) (fun _ _ => rfl),
      setNode_proj Node.terminateOnRestore _ _ _ rfl, setNode_nodes, if_pos rfl]
  · simp [Unlink, LinkInto, setNode]

/-- Claim C10: the terminate-on-restore flag is one-shot — when
`RestoreThread` finds the flag set on the calling thread's state, it
requests termination exactly once and resets the flag to false (and clears
the thread-local slot) — and `TerminateExecution` with an id matching no
state in the in-use list changes nothing. -/
theorem C10_terminate_one_shot :
    (∀ s t m, s.lazilyArchivedThread = none → s.threadStateTLS t = some m →
      (s.nodes m).terminateOnRestore = true →
      (RestoreThread s t).1 = true ∧
      List.count Ev.terminateRequest (RestoreThread s t).2.2 = 1 ∧
      ((RestoreThread s t).2.1.nodes m).terminateOnRestore = false ∧
      (RestoreThread s t).2.1.threadStateTLS t = none) ∧
    (∀ s tid, (∀ n ∈ inUseListMembers s, (s.nodes n).id ≠ tid) →
      TerminateExecution s tid = s) := by
  constructor
  · intro s t m h0 hm hterm
    obtain ⟨h1, h2, h3, h4⟩ := RestoreThreadTail_term s t m hm hterm
    rw [RestoreThread_noLazy s t h0]
    refine ⟨h1, ?_, h3, h4⟩
    rw [h2]
    decide
  · intro s tid h
    exact terminate_foldl_id tid (inUseListMembers s) s h

theorem C10_terminate_one_shot_witness :
    ((RestoreThread c10State 1).1 = true ∧
      List.count Ev.terminateRequest (RestoreThread c10State 1).2.2 = 1 ∧
      ((RestoreThread c10State 1).2.1.nodes 2).terminateOnRestore = false ∧
      (RestoreThread c10State 1).2.1.threadStateTLS 1 = none) ∧
    TerminateExecution initState 7 = initState := by
  constructor
  · exact C10_terminate_one_shot.1 c10State 1 2 (by decide) (by decide) (by decide)
  · refine C10_terminate_one_shot.2 initState 7 (fun n hn => ?_)
    rw [show inUseListMembers initState = ([] : List Nat) from by decide] at hn
    exact absurd hn (List.not_mem_nil n)

/-- Claim C8: the subsystem sequence run by `EagerlyArchiveThread` is
identical (same subsystems, same order) to the sequence run by
`RestoreThread`'s restoring tail, and the regexp-stack round trip
`RestoreStack(ArchiveStack(S))` restores the saved `ThreadLocal` record
with both sides advancing the cursor by `sizeof(ThreadLocal)`. -/
theorem C8_roundtrip :
    restoreOrder = archiveOrder ∧
    (∀ s n, s.lazilyArchivedThreadState = some n →
      (EagerlyArchiveThread s).2 = archiveOrder.map Ev.subsysArchive) ∧
    (∀ s t m, s.threadStateTLS t = some m →
      ∃ tail, (RestoreThreadTail s t).2.2 = restoreOrder.map Ev.subsysRestore ++ tail) ∧
    (∀ m p,
      (RegExp.RestoreStack (RegExp.ArchiveStack m p).1 p).1.threadLocal = m.threadLocal ∧
      (RegExp.ArchiveStack m p).2 = p + RegExp.kSizeOfThreadLocal ∧
      (RegExp.RestoreStack (RegExp.ArchiveStack m p).1 p).2
        = p + RegExp.kSizeOfThreadLocal) := by
  refine ⟨rfl, ?_, ?_, ?_⟩
  · intro s n h
    unfold EagerlyArchiveThread
    rw [h]
  · intro s t m hm
    unfold RestoreThreadTail
    rw [hm]
    exact ⟨_, rfl⟩
  · intro m p
    refine ⟨?_, rfl, rfl⟩
    simp [RegExp.RestoreStack, RegExp.ArchiveStack]

theorem C8_roundtrip_witness :
    (EagerlyArchiveThread (ArchiveThread initState 1).1).2
      = archiveOrder.map Ev.subsysArchive ∧
    (RegExp.RestoreStack (RegExp.ArchiveStack c8Mem 0).1 0).1.threadLocal
      = c8Mem.threadLocal :=
  ⟨C8_roundtrip.2.1 (ArchiveThread initState 1).1 2 (by decide),
   (C8_roundtrip.2.2.2 c8Mem 0).1⟩

theorem CSStep_inv {s : CS.CSState} {e : CS.CSEv} {s' : CS.CSState}
    (h : CS.CSStep s e s') (hi : CS.CSInv s) : CS.CSInv s' := by
  obtain ⟨h1, h2⟩ := hi
  cases h with
  | startNew ms hs =>
    refine ⟨fun w hw => ?_, fun g hg => ?_⟩
    · cases hw
      exact Nat.lt_succ_self _
    · obtain ⟨hlt, _⟩ := h2 g hg
      refine ⟨Nat.lt_succ_of_lt hlt, fun w hw => ?_⟩
      cases hw
      exact fun hc => absurd (hc ▸ hlt) (lt_irrefl _)
  | updateInterval w ms hs =>
    refine ⟨fun w' hw' => ?_, fun g hg => ?_⟩
    · cases hw'; exact h1 w hs
    · obtain ⟨hlt, hfor⟩ := h2 g hg
      exact ⟨hlt, fun w' hw' => by cases hw'; exact hfor w hs⟩
  | checkTrue w hs hc hk =>
    refine ⟨fun w' hw' => ?_, fun g hg => ?_⟩
    · cases hw'; exact h1 w hs
    · obtain ⟨hlt, hfor⟩ := h2 g hg
      exact ⟨hlt, fun w' hw' => by cases hw'; exact hfor w hs⟩
  | checkFalse w hs hc hk =>
    refine ⟨fun w' hw' => ?_, fun g hg => ?_⟩
    · cases hw'; exact h1 w hs
    · obtain ⟨hlt, hfor⟩ := h2 g hg
      exact ⟨hlt, fun w' hw' => by cases hw'; exact hfor w hs⟩
  | preempt w hs hc =>
    refine ⟨fun w' hw' => ?_, fun g hg => ?_⟩
    · cases hw'; exact h1 w hs
    · obtain ⟨hlt, hfor⟩ := h2 g hg
      exact ⟨hlt, fun w' hw' => by cases hw'; exact hfor w hs⟩
  | stopSetFlag w hs =>
    refine ⟨fun w' hw' => ?_, fun g hg => ?_⟩
    · cases hw'; exact h1 w hs
    · obtain ⟨hlt, hfor⟩ := h2 g hg
      exact ⟨hlt, fun w' hw' => by cases hw'; exact hfor w hs⟩
  | stopJoinReturn w hs hc =>
    refine ⟨fun w' hw' => Option.noConfusion hw', fun g hg => ?_⟩
    rcases List.mem_cons.mp hg with hg' | hg'
    · exact ⟨hg' ▸ h1 w hs, fun w' hw' => Option.noConfusion hw'⟩
    · exact ⟨(h2 g hg').1, fun w' hw' => Option.noConfusion hw'⟩

theorem CSStep_returned_mono {s : CS.CSState} {e : CS.CSEv} {s' : CS.CSState}
    (h : CS.CSStep s e s') : ∀ g ∈ s.returned, g ∈ s'.returned := by
  cases h <;> intro g hg <;> first
    | exact hg
    | exact List.mem_cons_of_mem _ hg

theorem CSStep_joinReturn_mem {s : CS.CSState} {e : CS.CSEv} {s' : CS.CSState}
    (h : CS.CSStep s e s') (g : Nat) (he : e = CS.CSEv.stopJoinReturn g) :
    g ∈ s'.returned := by
  cases h <;> cases he <;> exact List.mem_cons_self _ _

theorem CSStep_preempt_enabled {s : CS.CSState} {e : CS.CSEv} {s' : CS.CSState}
    (h : CS.CSStep s e s') (g : Nat) (he : e = CS.CSEv.preempt g) :
    ∃ w, s.singleton = some w ∧ w.gen = g := by
  cases h <;> cases he <;> exact ⟨_, by assumption, rfl⟩

theorem CSSteps_inv_returned {tr : List CS.CSEv} {s : CS.CSState}
    (h : CS.CSSteps CS.csInit tr s) :
    CS.CSInv s ∧ ∀ g, CS.CSEv.stopJoinReturn g ∈ tr → g ∈ s.returned := by
  induction h with
  | refl =>
    exact ⟨⟨fun w hw => Option.noConfusion hw,
            fun g hg => absurd hg (List.not_mem_nil _)⟩,
           fun g hg => absurd hg (List.not_mem_nil _)⟩
  | snoc s2 s3 tr e hsteps hstep ih =>
    refine ⟨CSStep_inv hstep ih.1, fun g hg => ?_⟩
    rcases List.mem_append.mp hg with h' | h'
    · exact CSStep_returned_mono hstep g (ih.2 g h')
    · exact CSStep_joinReturn_mem hstep g (List.mem_singleton.mp h').symm

/-- Claim C9: over any run of the preemption mechanism, no
`StackGuard::Preempt()` call by a worker occurs after the
`StopPreemption()` that stopped that worker has returned (the keep-going
flag is cleared and the worker joined before deletion), and at most one
Context Switcher worker exists per context at any time. -/
theorem C9_stop_preemption (s : CS.CSState) (tr : List CS.CSEv)
    (h : CS.CSSteps CS.csInit tr s) :
    (∀ g t1 t2, tr = t1 ++ CS.CSEv.stopJoinReturn g :: t2 → CS.CSEv.preempt g ∉ t2) ∧
    (∀ w1 w2, s.singleton = some w1 → s.singleton = some w2 → w1 = w2) := by
  refine ⟨?_, fun w1 w2 h1 h2 => by rw [h1] at h2; exact Option.some.inj h2⟩
  induction h with
  | refl =>
    intro g t1 t2 heq
    cases t1 <;> simp at heq
  | snoc s2 s3 tr e hsteps hstep ih =>
    intro g t1 t2 heq
    rcases List.eq_nil_or_concat t2 with h2 | ⟨t2', e2, h2⟩
    · subst h2; simp
    · rw [List.concat_eq_append] at h2
      subst h2
      have heq' : tr ++ [e] = (t1 ++ CS.CSEv.stopJoinReturn g :: t2') ++ [e2] := by
        rw [heq]; simp
      obtain ⟨htr, he⟩ := List.append_inj' heq' rfl
      have he2 : e = e2 := by simpa using he
      intro hmem
      rcases List.mem_append.mp hmem with hmem' | hmem'
      · exact ih g t1 t2' htr hmem'
      · have hpe : e = CS.CSEv.preempt g := by
          rw [he2]; exact (List.mem_singleton.mp hmem').symm
        have hjr : CS.CSEv.stopJoinReturn g ∈ tr := by
          rw [htr]
          exact List.mem_append.mpr (Or.inr (List.mem_cons_self _ _))
        obtain ⟨inv2, hret⟩ := CSSteps_inv_returned hsteps
        obtain ⟨w, hw, hwg⟩ := CSStep_preempt_enabled hstep g hpe
        exact (inv2.2 g (hret g hjr)).2 w hw hwg

theorem C9_stop_preemption_witness :
    CS.CSEv.preempt 0 ∉
      [CS.CSEv.startNew 1 5, CS.CSEv.checkKeepGoing 1, CS.CSEv.preempt 1] := by
  have d1 : CS.CSSteps CS.csInit [CS.CSEv.startNew 0 10]
      { singleton := some { gen := 0, keepGoing := true, sleepMs := 10, pc := CS.Pc.atCheck },
        nextGen := 1, returned := [] } :=
    CS.CSSteps.snoc _ _ _ _ _ (CS.CSSteps.refl CS.csInit)
      (CS.CSStep.startNew CS.csInit 10 rfl)
  have d2 : CS.CSSteps CS.csInit [CS.CSEv.startNew 0 10, CS.CSEv.stopSetFlag 0]
      { singleton := some { gen := 0, keepGoing := false, sleepMs := 10, pc := CS.Pc.atCheck },
        nextGen := 1, returned := [] } :=
    CS.CSSteps.snoc _ _ _ _ _ d1
      (CS.CSStep.stopSetFlag
        { singleton := some { gen := 0, keepGoing := true, sleepMs := 10, pc := CS.Pc.atCheck },
          nextGen := 1, returned := [] }
        { gen := 0, keepGoing := true, sleepMs := 10, pc := CS.Pc.atCheck } rfl)
  have d3 : CS.CSSteps CS.csInit
      [CS.CSEv.startNew 0 10, CS.CSEv.stopSetFlag 0, CS.CSEv.loopExit 0]
      { singleton := some { gen := 0, keepGoing := false, sleepMs := 10, pc := CS.Pc.exited },
        nextGen := 1, returned := [] } :=
    CS.CSSteps.snoc _ _ _ _ _ d2
      (CS.CSStep.checkFalse
        { singleton := some { gen := 0, keepGoing := false, sleepMs := 10, pc := CS.Pc.atCheck },
          nextGen := 1, returned := [] }
        { gen := 0, keepGoing := false, sleepMs := 10, pc := CS.Pc.atCheck } rfl rfl rfl)
  have d4 : CS.CSSteps CS.csInit
      [CS.CSEv.startNew 0 10, CS.CSEv.stopSetFlag 0, CS.CSEv.loopExit 0,
       CS.CSEv.stopJoinReturn 0]
      { singleton := none, nextGen := 1, returned := [0] } :=
    CS.CSSteps.snoc _ _ _ _ _ d3
      (CS.CSStep.stopJoinReturn
        { singleton := some { gen := 0, keepGoing := false, sleepMs := 10, pc := CS.Pc.exited },
          nextGen := 1, returned := [] }
        { gen := 0, keepGoing := false, sleepMs := 10, pc := CS.Pc.exited } rfl rfl)
  have d5 : CS.CSSteps CS.csInit
      [CS.CSEv.startNew 0 10, CS.CSEv.stopSetFlag 0, CS.CSEv.loopExit 0,
       CS.CSEv.stopJoinReturn 0, CS.CSEv.startNew 1 5]
      { singleton := some { gen := 1, keepGoing := true, sleepMs := 5, pc := CS.Pc.atCheck },
        nextGen := 2, returned := [0] } :=
    CS.CSSteps.snoc _ _ _ _ _ d4
      (CS.CSStep.startNew { singleton := none, nextGen := 1, returned := [0] } 5 rfl)
  have d6 : CS.CSSteps CS.csInit
      [CS.CSEv.startNew 0 10, CS.CSEv.stopSetFlag 0, CS.CSEv.loopExit 0,
       CS.CSEv.stopJoinReturn 0, CS.CSEv.startNew 1 5, CS.CSEv.checkKeepGoing 1]
      { singleton := some { gen := 1, keepGoing := true, sleepMs := 5, pc := CS.Pc.atPreempt },
        nextGen := 2, returned := [0] } :=
    CS.CSSteps.snoc _ _ _ _ _ d5
      (CS.CSStep.checkTrue
        { singleton := some { gen := 1, keepGoing := true, sleepMs := 5, pc := CS.Pc.atCheck },
          nextGen := 2, returned := [0] }
        { gen := 1, keepGoing := true, sleepMs := 5, pc := CS.Pc.atCheck } rfl rfl rfl)
  have d7 : CS.CSSteps CS.csInit
      [CS.CSEv.startNew 0 10, CS.CSEv.stopSetFlag 0, CS.CSEv.loopExit 0,
       CS.CSEv.stopJoinReturn 0, CS.CSEv.startNew 1 5, CS.CSEv.checkKeepGoing 1,
       CS.CSEv.preempt 1]
      { singleton := some { gen := 1, keepGoing := true, sleepMs := 5, pc := CS.Pc.atCheck },
        nextGen := 2, returned := [0] } :=
    CS.CSSteps.snoc _ _ _ _ _ d6
      (CS.CSStep.preempt
        { singleton := some { gen := 1, keepGoing := true, sleepMs := 5, pc := CS.Pc.atPreempt },
          nextGen := 2, returned := [0] }
        { gen := 1, keepGoing := true, sleepMs := 5, pc := CS.Pc.atPreempt } rfl rfl)
  exact (C9_stop_preemption _ _ d7).1 0
    [CS.CSEv.startNew 0 10, CS.CSEv.stopSetFlag 0, CS.CSEv.loopExit 0]
    [CS.CSEv.startNew 1 5, CS.CSEv.checkKeepGoing 1, CS.CSEv.preempt 1] rfl

theorem dchain_nil {s : TMState} {a b : Nat} :
    dchain s a [] b ↔ (s.nodes a).next = b ∧ (s.nodes b).prev = a :=
  Iff.rfl

theorem dchain_cons {s : TMState} {a x b : Nat} {L : List Nat} :
    dchain s a (x :: L) b ↔
      (s.nodes a).next = x ∧ (s.nodes x).prev = a ∧ dchain s x L b :=
  Iff.rfl

theorem dchain_frame {s s' : TMState} {b : Nat} :
    ∀ (L : List Nat) (a : Nat),
      (∀ u, u = a ∨ u ∈ L → (s'.nodes u).next = (s.nodes u).next) →
      (∀ u, u ∈ L ∨ u = b → (s'.nodes u).prev = (s.nodes u).prev) →
      dchain s a L b → dchain s' a L b
  | [], a, hn, hp, h =>
    ⟨(hn a (Or.inl rfl)).trans h.1, (hp b (Or.inr rfl)).trans h.2⟩
  | x :: L, a, hn, hp, h =>
    ⟨(hn a (Or.inl rfl)).trans h.1,
     (hp x (Or.inl (List.mem_cons_self x L))).trans h.2.1,
     dchain_frame L x
       (fun u hu => hn u (Or.inr (by
         rcases hu with h' | h'
         · exact h' ▸ List.mem_cons_self x L
         · exact List.mem_cons_of_mem x h')))
       (fun u hu => hp u (by
         rcases hu with h' | h'
         · exact Or.inl (List.mem_cons_of_mem x h')
         · exact Or.inr h'))
       h.2.2⟩

theorem dchain_append {s : TMState} {b x : Nat} :
    ∀ (L1 : List Nat) (a : Nat) (L2 : List Nat),
      dchain s a (L1 ++ x :: L2) b ↔ (dchain s a L1 x ∧ dchain s x L2 b)
  | [], a, L2 => by
    simp only [List.nil_append, dchain_cons, dchain_nil, and_assoc]
  | y :: L1, a, L2 => by
    simp only [List.cons_append, dchain_cons, dchain_append L1 y L2, and_assoc]

theorem dchain_last {s : TMState} {b : Nat} :
    ∀ (L : List Nat) (a : Nat), dchain s a L b →
      (s.nodes (lastOf L a)).next = b ∧ (s.nodes b).prev = lastOf L a
  | [], _, h => h
  | _ :: L, _, h => dchain_last L _ h.2.2

theorem dchain_head {s : TMState} {b : Nat} :
    ∀ (L : List Nat) (a : Nat), dchain s a L b →
      (s.nodes a).next = headOf L b ∧ (s.nodes (headOf L b)).prev = a
  | [], _, h => h
  | _ :: _, _, h => ⟨h.1, h.2.1⟩

theorem lastOf_mem : ∀ (L : List Nat) (a : Nat), lastOf L a ∈ a :: L
  | [], a => List.mem_cons_self a []
  | x :: L, a => List.mem_cons_of_mem a (lastOf_mem L x)

theorem headOf_mem : ∀ (L : List Nat) (b : Nat), headOf L b ∈ b :: L
  | [], b => List.mem_cons_self b []
  | x :: L, b => List.mem_cons_of_mem b (List.mem_cons_self x L)

theorem dchain_swap_last {s s' : TMState} {q : Nat} :
    ∀ (L : List Nat) (a m : Nat),
      dchain s a L m →
      (∀ u, (u = a ∨ u ∈ L) → u ≠ lastOf L a → (s'.nodes u).next = (s.nodes u).next) →
      (∀ u, u ∈ L → (s'.nodes u).prev = (s.nodes u).prev) →
      (s'.nodes (lastOf L a)).next = q →
      (s'.nodes q).prev = lastOf L a →
      (a :: L).Nodup →
      dchain s' a L q
  | [], a, m, _, _, _, hq1, hq2, _ => ⟨hq1, hq2⟩
  | x :: L, a, m, h, hn, hp, hq1, hq2, hnd => by
    have hane : a ≠ lastOf L x := by
      intro hc
      exact (List.nodup_cons.mp hnd).1 (hc ▸ lastOf_mem L x)
    refine ⟨?_, ?_, ?_⟩
    · rw [hn a (Or.inl rfl) hane]
      exact h.1
    · rw [hp x (List.mem_cons_self x L)]
      exact h.2.1
    · exact dchain_swap_last L x m h.2.2
        (fun u hu hne => hn u (Or.inr (by
          rcases hu with h' | h'
          · exact h' ▸ List.mem_cons_self x L
          · exact List.mem_cons_of_mem x h')) hne)
        (fun u hu => hp u (List.mem_cons_of_mem x hu))
        hq1 hq2 (List.nodup_cons.mp hnd).2

theorem Unlink_nodes (s : TMState) (m : Nat) {p q : Nat}
    (hp : (s.nodes m).prev = p) (hq : (s.nodes m).next = q) (hqm : q ≠ m) :
    ∀ u, ((Unlink s m).nodes u).next = (if u = p then q else (s.nodes u).next) ∧
         ((Unlink s m).nodes u).prev = (if u = q then p else (s.nodes u).prev) := by
  have hU : Unlink s m =
      setNode (setNode s q (fun nd => { nd with prev := p })) p
        (fun nd => { nd with next := q }) := by
    simp only [Unlink]
    rw [hq, hp, setNode_nodes, if_neg (fun hc => hqm hc.symm), hp, hq]
  intro u
  rw [hU]
  constructor
  · by_cases hu : u = p
    · subst hu
      rw [setNode_nodes, if_pos rfl, if_pos rfl]
    · rw [setNode_nodes, if_neg hu, if_neg hu]
      exact setNode_proj Node.next _ _ _ rfl u
  · have h1 : ((setNode (setNode s q fun nd => { nd with prev := p }) p
        (fun nd => { nd with next := q })).nodes u).prev
        = ((setNode s q fun nd => { nd with prev := p }).nodes u).prev :=
      setNode_proj Node.prev _ _ _ rfl u
    rw [h1, setNode_nodes]
    by_cases hu : u = q
    · subst hu
      rw [if_pos rfl, if_pos rfl]
    · rw [if_neg hu, if_neg hu]

theorem LinkInto_nodes (s : TMState) (l : WhichList) (n : Nat) {a h : Nat}
    (ha : anchorOf l = a) (hh : (s.nodes a).next = h) (hna : n ≠ a) (hhn : h ≠ n) :
    ∀ u, ((LinkInto s l n).nodes u).next
          = (if u = a then n else if u = n then h else (s.nodes u).next) ∧
         ((LinkInto s l n).nodes u).prev
          = (if u = h then n else if u = n then a else (s.nodes u).prev) := by
  have hL : LinkInto s l n =
      setNode (setNode (setNode (setNode s n (fun nd => { nd with next := h })) n
        (fun nd => { nd with prev := a })) a (fun nd => { nd with next := n })) h
        (fun nd => { nd with prev := n }) := by
    simp only [LinkInto]
    rw [ha, hh, setNode_nodes, if_neg hna, setNode_nodes, if_pos rfl, setNode_nodes,
      if_pos rfl]
  intro u
  rw [hL]
  constructor
  · have h1 : ((setNode (setNode (setNode (setNode s n fun nd => { nd with next := h }) n
        fun nd => { nd with prev := a }) a fun nd => { nd with next := n }) h
        (fun nd => { nd with prev := n })).nodes u).next
        = (((setNode (setNode (setNode s n fun nd => { nd with next := h }) n
            fun nd => { nd with prev := a }) a fun nd => { nd with next := n })).nodes u).next :=
      setNode_proj Node.next _ _ _ rfl u
    rw [h1, setNode_nodes]
    by_cases hua : u = a
    · subst hua
      rw [if_pos rfl, if_pos rfl]
    · rw [if_neg hua, if_neg hua, setNode_nodes]
      by_cases hun : u = n
      · subst hun
        rw [if_pos rfl, if_pos rfl, setNode_nodes, if_pos rfl]
      · rw [if_neg hun, if_neg hun, setNode_nodes, if_neg hun]
  · rw [setNode_nodes]
    by_cases huh : u = h
    · subst huh
      rw [if_pos rfl, if_pos rfl]
    · rw [if_neg huh, if_neg huh]
      have h2 : ((setNode (setNode (setNode s n fun nd => { nd with next := h }) n
          fun nd => { nd with prev := a }) a (fun nd => { nd with next := n })).nodes u).prev
          = ((setNode (setNode s n fun nd => { nd with next := h }) n
              (fun nd => { nd with prev := a })).nodes u).prev :=
        setNode_proj Node.prev _ _ _ rfl u
      rw [h2, setNode_nodes]
      by_cases hun : u = n
      · subst hun
        rw [if_pos rfl, if_pos rfl]
      · rw [if_neg hun, if_neg hun, setNode_nodes, if_neg hun]

theorem dcycle_unlink {s : TMState} {a m : Nat} (L1 L2 : List Nat)
    (hcyc : dcycle s a (L1 ++ m :: L2))
    (hnd : (a :: (L1 ++ m :: L2)).Nodup) :
    dcycle (Unlink s m) a (L1 ++ L2) := by
  obtain ⟨h1, h2⟩ := (dchain_append L1 a L2).mp hcyc
  have hpm := dchain_last L1 a h1
  have hqm := dchain_head L2 m h2
  have hnd1 := List.nodup_cons.mp hnd
  have ha : a ∉ L1 ++ m :: L2 := hnd1.1
  have haL1 : a ∉ L1 := fun hc => ha (List.mem_append.mpr (Or.inl hc))
  have haL2 : a ∉ L2 := fun hc =>
    ha (List.mem_append.mpr (Or.inr (List.mem_cons_of_mem m hc)))
  have ham : a ≠ m := fun hc =>
    ha (List.mem_append.mpr (Or.inr (hc ▸ List.mem_cons_self m L2)))
  have hmid := List.nodup_cons.mp (List.nodup_middle.mp hnd1.2)
  have hmL1 : m ∉ L1 := fun hc => hmid.1 (List.mem_append.mpr (Or.inl hc))
  have hmL2 : m ∉ L2 := fun hc => hmid.1 (List.mem_append.mpr (Or.inr hc))
  have hdisj : ∀ u, u ∈ L1 → u ∈ L2 → False := fun u h1' h2' =>
    List.disjoint_of_nodup_append hnd1.2 h1' (List.mem_cons_of_mem m h2')
  have hpmem := lastOf_mem L1 a
  have hqmem := headOf_mem L2 a
  have hqne : headOf L2 a ≠ m := by
    intro hc
    rcases List.mem_cons.mp hqmem with h' | h'
    · exact ham (h'.symm.trans hc)
    · exact hmL2 (hc ▸ h')
  have hN := Unlink_nodes s m hpm.2 hqm.1 hqne
  have hndaL1 : (a :: L1).Nodup := by
    refine List.Nodup.sublist ?_ hnd
    exact List.Sublist.cons₂ a (List.sublist_append_left L1 (m :: L2))
  have hpne2 : ∀ u, u ∈ L2 → u ≠ lastOf L1 a := by
    intro u hu hc
    rcases List.mem_cons.mp hpmem with h' | h'
    · exact haL2 ((hc.trans h') ▸ hu)
    · exact hdisj u (hc ▸ h') hu
  cases L2 with
  | nil =>
    have hN' : ∀ u,
        ((Unlink s m).nodes u).next
          = (if u = lastOf L1 a then a else (s.nodes u).next) ∧
        ((Unlink s m).nodes u).prev
          = (if u = a then lastOf L1 a else (s.nodes u).prev) := hN
    rw [List.append_nil]
    refine dchain_swap_last L1 a m h1
      (fun u _ hne => ((hN' u).1).trans (if_neg hne))
      (fun u hu => ((hN' u).2).trans (if_neg (fun hc : u = a => haL1 (by rw [← hc]; exact hu))))
      (((hN' (lastOf L1 a)).1).trans (if_pos rfl))
      (((hN' a).2).trans (if_pos rfl))
      hndaL1
  | cons y L2' =>
    have hN' : ∀ u,
        ((Unlink s m).nodes u).next
          = (if u = lastOf L1 a then y else (s.nodes u).next) ∧
        ((Unlink s m).nodes u).prev
          = (if u = y then lastOf L1 a else (s.nodes u).prev) := hN
    have hyL2 : y ∈ y :: L2' := List.mem_cons_self y L2'
    have hndL2 : (y :: L2').Nodup := (List.Nodup.of_append_right hnd1.2).of_cons
    have hyL2' : y ∉ L2' := (List.nodup_cons.mp hndL2).1
    have hay : a ≠ y := fun hc => haL2 (hc ▸ hyL2)
    refine (dchain_append L1 a L2').mpr ⟨?_, ?_⟩
    · refine dchain_swap_last L1 a m h1
        (fun u _ hne => ((hN' u).1).trans (if_neg hne))
        (fun u hu => ((hN' u).2).trans (if_neg (fun hc : u = y => hdisj u hu (by rw [hc]; exact hyL2))))
        (((hN' (lastOf L1 a)).1).trans (if_pos rfl))
        (((hN' y).2).trans (if_pos rfl))
        hndaL1
    · refine dchain_frame L2' y
        (fun u hu => ((hN' u).1).trans (if_neg (hpne2 u (by
          rcases hu with h' | h'
          · exact h' ▸ hyL2
          · exact List.mem_cons_of_mem y h'))))
        (fun u hu => ((hN' u).2).trans (if_neg (by
          rcases hu with h' | h'
          · exact fun hc => hyL2' (hc ▸ h')
          · exact fun hc => hay ((h' ▸ hc : a = y)))))
        h2.2.2

theorem dcycle_linkInto {s : TMState} {n : Nat} (l : WhichList) (L : List Nat)
    (hcyc : dcycle s (anchorOf l) L)
    (hna : n ≠ anchorOf l) (hnL : n ∉ L) (haL : anchorOf l ∉ L) (hnd : L.Nodup) :
    dcycle (LinkInto s l n) (anchorOf l) (n :: L) := by
  have hhead := dchain_head L (anchorOf l) hcyc
  have hhn : headOf L (anchorOf l) ≠ n := by
    intro hc
    rcases List.mem_cons.mp (headOf_mem L (anchorOf l)) with h' | h'
    · exact hna (hc.symm.trans h')
    · exact hnL (hc ▸ h')
  have hN := LinkInto_nodes s l n rfl hhead.1 hna hhn
  refine ⟨?_, ?_, ?_⟩
  · exact ((hN (anchorOf l)).1).trans (if_pos rfl)
  · exact ((hN n).2).trans (by rw [if_neg (fun hc => hhn hc.symm), if_pos rfl])
  · cases L with
    | nil =>
      simp only [headOf] at hN
      refine ⟨?_, ?_⟩
      · exact ((hN n).1).trans (by rw [if_neg hna, if_pos rfl])
      · exact ((hN (anchorOf l)).2).trans (by rw [if_pos rfl])
    | cons y L' =>
      simp only [headOf] at hN
      have hyL : y ∈ y :: L' := List.mem_cons_self y L'
      have hndL := List.nodup_cons.mp hnd
      refine ⟨?_, ?_, ?_⟩
      · exact ((hN n).1).trans (by rw [if_neg hna, if_pos rfl])
      · exact ((hN y).2).trans (by rw [if_pos rfl])
      · refine dchain_frame L' y
          (fun u hu => ?_)
          (fun u hu => ?_)
          hcyc.2.2
        · have humem : u ∈ y :: L' := by
            rcases hu with h' | h'
            · exact h' ▸ hyL
            · exact List.mem_cons_of_mem y h'
          have hua : ¬ u = anchorOf l := fun hc => haL (hc ▸ humem)
          have hun : ¬ u = n := fun hc => hnL (hc ▸ humem)
          exact ((hN u).1).trans (by rw [if_neg hua, if_neg hun])
        · have huh : ¬ u = y := by
            rcases hu with h' | h'
            · exact fun hc : u = y => hndL.1 (hc ▸ h')
            · exact fun hc : u = y => haL (by rw [h'.symm.trans hc]; exact hyL)
          have hun : ¬ u = n := by
            rcases hu with h' | h'
            · exact fun hc => hnL (hc ▸ (List.mem_cons_of_mem y h'))
            · exact fun hc => hna (h'.symm.trans hc).symm
          exact ((hN u).2).trans (by rw [if_neg huh, if_neg hun])

theorem dcycle_unlink_frame {s : TMState} {m b : Nat} {M : List Nat}
    {p q : Nat} (hp : (s.nodes m).prev = p) (hq : (s.nodes m).next = q) (hqm : q ≠ m)
    (hcyc : dcycle s b M)
    (hall : ∀ u, u = b ∨ u ∈ M → u ≠ p ∧ u ≠ q) :
    dcycle (Unlink s m) b M := by
  have hN := Unlink_nodes s m hp hq hqm
  refine dchain_frame M b
    (fun u hu => ((hN u).1).trans (if_neg (hall u hu).1))
    (fun u hu => ((hN u).2).trans (if_neg (hall u (by
      rcases hu with h' | h'
      · exact Or.inr h'
      · exact Or.inl h')).2))
    hcyc

theorem dcycle_linkInto_frame {s : TMState} {n b : Nat} {M : List Nat} (l : WhichList)
    {a h : Nat} (ha : anchorOf l = a) (hh : (s.nodes a).next = h)
    (hna : n ≠ a) (hhn : h ≠ n)
    (hcyc : dcycle s b M)
    (hall : ∀ u, u = b ∨ u ∈ M → u ≠ a ∧ u ≠ n ∧ u ≠ h) :
    dcycle (LinkInto s l n) b M := by
  have hN := LinkInto_nodes s l n ha hh hna hhn
  refine dchain_frame M b
    (fun u hu => ((hN u).1).trans (by
      rw [if_neg (hall u hu).1, if_neg (hall u hu).2.1]))
    (fun u hu => ((hN u).2).trans (by
      have hu' : u = b ∨ u ∈ M := by
        rcases hu with h' | h'
        · exact Or.inr h'
        · exact Or.inl h'
      rw [if_neg (hall u hu').2.2, if_neg (hall u hu').2.1]))
    hcyc

theorem dchain_setNode_attr {s : TMState} {a b n : Nat} {L : List Nat} (f : Node → Node)
    (hfn : ∀ nd, (f nd).next = nd.next) (hfp : ∀ nd, (f nd).prev = nd.prev)
    (h : dchain s a L b) : dchain (setNode s n f) a L b :=
  dchain_frame L a (fun u _ => setNode_proj Node.next s n f (hfn _) u)
    (fun u _ => setNode_proj Node.prev s n f (hfp _) u) h

theorem GetFree_pos (s : TMState) (h : (s.nodes freeAnchor).next = freeAnchor) :
    GetFree s = (s.alloc,
      { s with nodes := Function.update s.nodes s.alloc (freshNode s.alloc),
               alloc := s.alloc + 1 }) := by
  unfold GetFree
  rw [if_pos h]

theorem GetFree_neg (s : TMState) (h : ¬ (s.nodes freeAnchor).next = freeAnchor) :
    GetFree s = ((s.nodes freeAnchor).next, s) := by
  unfold GetFree
  rw [if_neg h]

theorem Unlink_pos2 (s : TMState) (m : Nat) :
    ((setNode s (s.nodes m).next
        (fun nd => { nd with prev := (s.nodes m).prev })).nodes m).prev
      = (s.nodes m).prev := by
  rw [setNode_nodes]
  split
  · next heq => rw [← heq]
  · rfl

theorem Unlink_untouched (s : TMState) (m u : Nat)
    (h1 : u ≠ (s.nodes m).next) (h2 : u ≠ (s.nodes m).prev) :
    (Unlink s m).nodes u = s.nodes u := by
  simp only [Unlink]
  rw [Unlink_pos2, setNode_nodes, if_neg h2, setNode_nodes, if_neg h1]

theorem ArchiveThread_nodes (s : TMState) (t : Nat) :
    (ArchiveThread s t).1.nodes
      = (setNode (Unlink (GetFree s).2 (GetFree s).1) (GetFree s).1
          (fun nd => { nd with id := CurrentId (GetFree s).2 t })).nodes := rfl

theorem ArchiveThread_alloc (s : TMState) (t : Nat) :
    (ArchiveThread s t).1.alloc = (GetFree s).2.alloc := rfl

theorem ArchiveThread_tlsEq (s : TMState) (t : Nat) :
    (ArchiveThread s t).1.threadStateTLS
      = Function.update ((GetFree s).2.threadStateTLS) t (some (GetFree s).1) := rfl

theorem ArchiveThread_idTLS (s : TMState) (t : Nat) :
    (ArchiveThread s t).1.threadIdTLS = (GetFree s).2.threadIdTLS := rfl

theorem ArchiveThread_nodes2 (s : TMState) (t n : Nat) (sg : TMState)
    (hGF : GetFree s = (n, sg)) :
    (ArchiveThread s t).1.nodes
      = (setNode (Unlink sg n) n (fun nd => { nd with id := CurrentId sg t })).nodes := by
  rw [ArchiveThread_nodes, hGF]

theorem ArchiveThread_alloc2 (s : TMState) (t n : Nat) (sg : TMState)
    (hGF : GetFree s = (n, sg)) :
    (ArchiveThread s t).1.alloc = sg.alloc := by
  rw [ArchiveThread_alloc, hGF]

theorem ArchiveThread_tlsEq2 (s : TMState) (t n : Nat) (sg : TMState)
    (hGF : GetFree s = (n, sg)) :
    (ArchiveThread s t).1.threadStateTLS
      = Function.update sg.threadStateTLS t (some n) := by
  rw [ArchiveThread_tlsEq, hGF]

theorem ArchiveThread_lazyState2 (s : TMState) (t n : Nat) (sg : TMState)
    (hGF : GetFree s = (n, sg)) :
    (ArchiveThread s t).1.lazilyArchivedThreadState = some n := by
  rw [ArchiveThread_lazyState, hGF]

theorem GetFree_tls (s : TMState) :
    (GetFree s).2.threadStateTLS = s.threadStateTLS := by
  by_cases h : (s.nodes freeAnchor).next = freeAnchor
  · rw [GetFree_pos s h]
  · rw [GetFree_neg s h]

theorem Inv_lazyStateNone {s : TMState} {freeL inUseL : List Nat}
    (inv : Inv s freeL inUseL) (h : s.lazilyArchivedThread = none) :
    s.lazilyArchivedThreadState = none := by
  have hp := inv.lazyPaired
  rw [h] at hp
  cases hls : s.lazilyArchivedThreadState with
  | none => rfl
  | some x => simp [hls] at hp

theorem dchain_congr {s s' : TMState} {a b : Nat} {L : List Nat}
    (h : s'.nodes = s.nodes) (hd : dchain s a L b) : dchain s' a L b :=
  dchain_frame L a (fun u _ => by rw [h]) (fun u _ => by rw [h]) hd

theorem Inv_archive {s : TMState} {freeL inUseL : List Nat} {t : Nat}
    (inv : Inv s freeL inUseL) (pre : ArchiveThreadPre s t) :
    ∃ freeL', Inv (ArchiveThread s t).1 freeL' inUseL := by
  have h0eq : freeAnchor = 0 := rfl
  have h1eq : inUseAnchor = 1 := rfl
  have hlzs : s.lazilyArchivedThreadState = none := Inv_lazyStateNone inv pre.1
  have hfreeNd : freeL.Nodup := inv.nodup.of_append_left
  have hinUseNd : inUseL.Nodup := inv.nodup.of_append_right
  have hdisj : ∀ u, u ∈ freeL → u ∈ inUseL → False := fun u h1 h2 =>
    List.disjoint_of_nodup_append inv.nodup h1 h2
  by_cases hfree : (s.nodes freeAnchor).next = freeAnchor
  · -- free list empty: a fresh ThreadState is allocated
    have hGF := GetFree_pos s hfree
    have hfnil : freeL = [] := by
      cases hfl : freeL with
      | nil => rfl
      | cons x L =>
        have h00 := inv.freeCycle
        rw [hfl] at h00
        have hb := (inv.freeBounded x (by rw [hfl]; exact List.mem_cons_self x L)).1
        have : freeAnchor = x := hfree.symm.trans h00.1
        omega
    have hA2 : 2 ≤ s.alloc := inv.allocBound
    have hnodesEq := ArchiveThread_nodes2 s t s.alloc _ hGF
    have hsgA : (Function.update s.nodes s.alloc (freshNode s.alloc)) s.alloc
        = freshNode s.alloc := Function.update_same _ _ _
    have hunt : ∀ u, u ≠ s.alloc → (ArchiveThread s t).1.nodes u = s.nodes u := by
      intro u hu
      rw [hnodesEq, setNode_nodes, if_neg hu, Unlink_untouched]
      · show Function.update s.nodes s.alloc (freshNode s.alloc) u = s.nodes u
        rw [Function.update_noteq hu]
      · show u ≠ (Function.update s.nodes s.alloc (freshNode s.alloc) s.alloc).next
        rw [hsgA]
        exact hu
      · show u ≠ (Function.update s.nodes s.alloc (freshNode s.alloc) s.alloc).prev
        rw [hsgA]
        exact hu
    have halloc : (ArchiveThread s t).1.alloc = s.alloc + 1 := by
      rw [ArchiveThread_alloc, hGF]
    have htls : (ArchiveThread s t).1.threadStateTLS
        = Function.update s.threadStateTLS t (some s.alloc) := by
      rw [ArchiveThread_tlsEq, hGF]
    have hls' : (ArchiveThread s t).1.lazilyArchivedThreadState = some s.alloc := by
      rw [ArchiveThread_lazyState, hGF]
    refine ⟨[], ?_⟩
    refine ⟨?_, ?_, ?_, ?_, ?_, ?_, ?_, ?_, ?_, ?_, ?_, ?_⟩
    · -- freeCycle: the empty cycle at the free anchor
      have h00 := inv.freeCycle
      rw [hfnil] at h00
      exact ⟨(congrArg Node.next (hunt freeAnchor (by omega))).trans h00.1,
             (congrArg Node.prev (hunt freeAnchor (by omega))).trans h00.2⟩
    · -- inUseCycle untouched
      refine dchain_frame inUseL inUseAnchor (fun u hu => ?_) (fun u hu => ?_)
        inv.inUseCycle
      · refine congrArg Node.next (hunt u ?_)
        rcases hu with h' | h'
        · omega
        · have := (inv.inUseBounded u h').2; omega
      · refine congrArg Node.prev (hunt u ?_)
        rcases hu with h' | h'
        · have := (inv.inUseBounded u h').2; omega
        · omega
    · rw [halloc]; omega
    · intro u hu; cases hu
    · intro u hu
      have := inv.inUseBounded u hu
      rw [halloc]
      omega
    · rw [List.nil_append]
      exact hinUseNd
    · intro n' hn'
      rw [hls'] at hn'
      cases hn'
      refine ⟨hA2, by rw [halloc]; omega, fun hc => absurd hc (List.not_mem_nil _), ?_⟩
      intro hc
      have := (inv.inUseBounded _ hc).2
      omega
    · rw [hls']
      simp [ArchiveThread_lazy]
    · intro k hk2 hka
      rw [halloc] at hka
      by_cases hks : k = s.alloc
      · exact Or.inr (Or.inr (by rw [hls', hks]))
      · have hk' : k < s.alloc := by omega
        rcases inv.partition k hk2 hk' with h' | h' | h'
        · rw [hfnil] at h'; cases h'
        · exact Or.inr (Or.inl h')
        · rw [hlzs] at h'; cases h'
    · intro u m hm
      rw [htls] at hm
      by_cases hut : u = t
      · subst hut
        rw [Function.update_same] at hm
        cases hm
        exact Or.inr ⟨ArchiveThread_lazy s u, hls'⟩
      · rw [Function.update_noteq hut] at hm
        rcases inv.tlsSound u m hm with h' | h'
        · exact Or.inl h'
        · rw [pre.1] at h'; cases h'.1
    · intro u v m hu hv
      rw [htls] at hu hv
      by_cases hut : u = t <;> by_cases hvt : v = t
      · rw [hut, hvt]
      · subst hut
        rw [Function.update_same] at hu
        rw [Function.update_noteq hvt] at hv
        cases hu
        rcases inv.tlsSound v _ hv with h' | h'
        · have := (inv.inUseBounded _ h').2; omega
        · rw [pre.1] at h'; cases h'.1
      · subst hvt
        rw [Function.update_same] at hv
        rw [Function.update_noteq hut] at hu
        cases hv
        rcases inv.tlsSound u _ hu with h' | h'
        · have := (inv.inUseBounded _ h').2; omega
        · rw [pre.1] at h'; cases h'.1
      · rw [Function.update_noteq hut] at hu
        rw [Function.update_noteq hvt] at hv
        exact inv.tlsInj u v m hu hv
    · intro t' ht'
      have : t' = t := by
        have := ArchiveThread_lazy s t
        rw [this] at ht'
        exact (Option.some.inj ht').symm
      subst this
      rw [htls, Function.update_same, hls']
  · -- free list non-empty: its head is reused
    have hGF := GetFree_neg s hfree
    obtain ⟨rest, hfl⟩ : ∃ rest, freeL = (s.nodes freeAnchor).next :: rest := by
      cases hfl : freeL with
      | nil =>
        have h00 := inv.freeCycle
        rw [hfl] at h00
        exact absurd h00.1 hfree
      | cons x L =>
        have h00 := inv.freeCycle
        rw [hfl] at h00
        exact ⟨L, by rw [h00.1]⟩
    have hnmem : (s.nodes freeAnchor).next ∈ freeL := by
      rw [hfl]; exact List.mem_cons_self _ _
    have hnb := inv.freeBounded _ hnmem
    have hcyc0 : dcycle s freeAnchor ((s.nodes freeAnchor).next :: rest) := by
      rw [← hfl]; exact inv.freeCycle
    have h0f : freeAnchor ∉ freeL := fun hc => by
      have := (inv.freeBounded _ hc).1; omega
    have hndaf : (freeAnchor :: freeL).Nodup :=
      List.nodup_cons.mpr ⟨h0f, hfreeNd⟩
    have hUn : dcycle (Unlink s (s.nodes freeAnchor).next) freeAnchor rest := by
      have := dcycle_unlink ([] : List Nat) rest
        (by rw [List.nil_append]; exact hcyc0)
        (by rw [List.nil_append]; rw [hfl] at hndaf; exact hndaf)
      rw [List.nil_append] at this
      exact this
    have hnodesEq := ArchiveThread_nodes2 s t (s.nodes freeAnchor).next s hGF
    have halloc : (ArchiveThread s t).1.alloc = s.alloc :=
      ArchiveThread_alloc2 s t (s.nodes freeAnchor).next s hGF
    have htls : (ArchiveThread s t).1.threadStateTLS
        = Function.update s.threadStateTLS t (some (s.nodes freeAnchor).next) :=
      ArchiveThread_tlsEq2 s t (s.nodes freeAnchor).next s hGF
    have hls' : (ArchiveThread s t).1.lazilyArchivedThreadState
        = some (s.nodes freeAnchor).next :=
      ArchiveThread_lazyState2 s t (s.nodes freeAnchor).next s hGF
    -- the two pointer positions touched by Unlink
    have hprevn : (s.nodes ((s.nodes freeAnchor).next)).prev = freeAnchor := hcyc0.2.1
    have hqhead := dchain_head rest (s.nodes freeAnchor).next hcyc0.2.2
    have hrestNd : ((s.nodes freeAnchor).next :: rest).Nodup := by
      rw [← hfl]; exact hfreeNd
    have hqne : headOf rest freeAnchor ≠ (s.nodes freeAnchor).next := by
      intro hc
      rcases List.mem_cons.mp (headOf_mem rest freeAnchor) with h' | h'
      · exact hfree (hc.symm.trans h')
      · exact (List.nodup_cons.mp hrestNd).1 (hc ▸ h')
    refine ⟨rest, ?_⟩
    refine ⟨?_, ?_, ?_, ?_, ?_, ?_, ?_, ?_, ?_, ?_, ?_, ?_⟩
    · -- freeCycle: tail of the old free list
      exact dchain_congr hnodesEq
        (dchain_setNode_attr (fun nd => { nd with id := CurrentId s t })
          (fun _ => rfl) (fun _ => rfl) hUn)
    · -- inUseCycle untouched by unlinking a free-list node
      have hqmem := headOf_mem rest freeAnchor
      refine dchain_congr hnodesEq
        (dchain_setNode_attr (fun nd => { nd with id := CurrentId s t })
          (fun _ => rfl) (fun _ => rfl)
          (dcycle_unlink_frame hprevn hqhead.1 hqne inv.inUseCycle ?_))
      intro u hu
      have hune : 2 ≤ u ∨ u = inUseAnchor := by
        rcases hu with h' | h'
        · exact Or.inr h'
        · exact Or.inl (inv.inUseBounded u h').1
      constructor
      · rcases hune with h' | h' <;> omega
      · intro hc
        rcases List.mem_cons.mp hqmem with h' | h'
        · have hu0 : u = freeAnchor := hc.trans h'
          rcases hune with h2 | h2 <;> omega
        · have hmemf : u ∈ freeL := by
            rw [hfl]
            refine List.mem_cons_of_mem _ ?_
            rw [hc]
            exact h'
          rcases hu with h3 | h3
          · have := (inv.freeBounded u hmemf).1
            omega
          · exact hdisj u hmemf h3
    · rw [halloc]
      exact inv.allocBound
    · intro u hu
      rw [halloc]
      exact inv.freeBounded u (by rw [hfl]; exact List.mem_cons_of_mem _ hu)
    · intro u hu
      rw [halloc]
      exact inv.inUseBounded u hu
    · refine List.Nodup.sublist ?_ inv.nodup
      rw [hfl]
      exact List.Sublist.append_right (List.sublist_cons_self _ _) inUseL
    · intro n' hn'
      rw [hls'] at hn'
      cases hn'
      refine ⟨hnb.1, by rw [halloc]; exact hnb.2,
        (List.nodup_cons.mp hrestNd).1, fun hc => hdisj _ hnmem hc⟩
    · rw [hls']
      simp [ArchiveThread_lazy]
    · intro k hk2 hka
      rw [halloc] at hka
      rcases inv.partition k hk2 hka with h' | h' | h'
      · rw [hfl] at h'
        rcases List.mem_cons.mp h' with h2 | h2
        · exact Or.inr (Or.inr (by rw [hls', h2]))
        · exact Or.inl h2
      · exact Or.inr (Or.inl h')
      · rw [hlzs] at h'
        cases h'
    · intro u m hm
      rw [htls] at hm
      by_cases hut : u = t
      · subst hut
        rw [Function.update_same] at hm
        cases hm
        exact Or.inr ⟨ArchiveThread_lazy s u, hls'⟩
      · rw [Function.update_noteq hut] at hm
        rcases inv.tlsSound u m hm with h' | h'
        · exact Or.inl h'
        · rw [pre.1] at h'
          cases h'.1
    · intro u v m hu hv
      rw [htls] at hu hv
      by_cases hut : u = t <;> by_cases hvt : v = t
      · rw [hut, hvt]
      · subst hut
        rw [Function.update_same] at hu
        rw [Function.update_noteq hvt] at hv
        cases hu
        rcases inv.tlsSound v _ hv with h' | h'
        · exact absurd h' (fun hc => hdisj _ hnmem hc)
        · rw [pre.1] at h'
          cases h'.1
      · subst hvt
        rw [Function.update_same] at hv
        rw [Function.update_noteq hut] at hu
        cases hv
        rcases inv.tlsSound u _ hu with h' | h'
        · exact absurd h' (fun hc => hdisj _ hnmem hc)
        · rw [pre.1] at h'
          cases h'.1
      · rw [Function.update_noteq hut] at hu
        rw [Function.update_noteq hvt] at hv
        exact inv.tlsInj u v m hu hv
    · intro t' ht'
      have hteq : t' = t := by
        have h2 := ArchiveThread_lazy s t
        rw [h2] at ht'
        exact (Option.some.inj ht').symm
      subst hteq
      rw [htls, Function.update_same, hls']

theorem LinkInto_live (s : TMState) (l : WhichList) (n : Nat) :
    (LinkInto s l n).live = s.live := rfl

theorem Eager_nodes (s : TMState) (n : Nat) (hn : s.lazilyArchivedThreadState = some n) :
    (EagerlyArchiveThread s).1.nodes
      = (setNode (LinkInto s WhichList.IN_USE_LIST n) n
          (fun nd => { nd with data := some s.live })).nodes := by
  unfold EagerlyArchiveThread
  rw [hn]
  show (setNode (LinkInto s WhichList.IN_USE_LIST n) n
      (fun nd => { nd with data := some ((LinkInto s WhichList.IN_USE_LIST n).live) })).nodes = _
  rw [LinkInto_live]

theorem Eager_lazy (s : TMState) (n : Nat) (hn : s.lazilyArchivedThreadState = some n) :
    (EagerlyArchiveThread s).1.lazilyArchivedThread = none := by
  unfold EagerlyArchiveThread
  rw [hn]

theorem Eager_lazyState (s : TMState) (n : Nat)
    (hn : s.lazilyArchivedThreadState = some n) :
    (EagerlyArchiveThread s).1.lazilyArchivedThreadState = none := by
  unfold EagerlyArchiveThread
  rw [hn]

theorem Eager_tls (s : TMState) (n : Nat) (hn : s.lazilyArchivedThreadState = some n) :
    (EagerlyArchiveThread s).1.threadStateTLS = s.threadStateTLS := by
  unfold EagerlyArchiveThread
  rw [hn]
  rfl

theorem Eager_alloc (s : TMState) (n : Nat) (hn : s.lazilyArchivedThreadState = some n) :
    (EagerlyArchiveThread s).1.alloc = s.alloc := by
  unfold EagerlyArchiveThread
  rw [hn]
  rfl

theorem Eager_trace (s : TMState) (n : Nat) (hn : s.lazilyArchivedThreadState = some n) :
    (EagerlyArchiveThread s).2 = archiveOrder.map Ev.subsysArchive := by
  unfold EagerlyArchiveThread
  rw [hn]

theorem Eager_data (s : TMState) (n : Nat) (hn : s.lazilyArchivedThreadState = some n) :
    ((EagerlyArchiveThread s).1.nodes n).data = some s.live := by
  rw [Eager_nodes s n hn, setNode_nodes, if_pos rfl]

theorem Inv_eager {s : TMState} {freeL inUseL : List Nat} {n : Nat}
    (inv : Inv s freeL inUseL) (hn : s.lazilyArchivedThreadState = some n) :
    Inv (EagerlyArchiveThread s).1 freeL (n :: inUseL) := by
  obtain ⟨hn2, hna, hnf, hni⟩ := inv.lazyDetached n hn
  have h0eq : freeAnchor = 0 := rfl
  have h1eq : inUseAnchor = 1 := rfl
  have hdisj : ∀ u, u ∈ freeL → u ∈ inUseL → False := fun u h1 h2 =>
    List.disjoint_of_nodup_append inv.nodup h1 h2
  have hnodesEq := Eager_nodes s n hn
  have hn1 : n ≠ inUseAnchor := by omega
  have h1ni : inUseAnchor ∉ inUseL := fun hc => by
    have := (inv.inUseBounded _ hc).1
    omega
  have hhd := dchain_head inUseL inUseAnchor inv.inUseCycle
  have hheadmem := headOf_mem inUseL inUseAnchor
  have hheadn : headOf inUseL inUseAnchor ≠ n := by
    intro hc
    rcases List.mem_cons.mp hheadmem with h' | h'
    · rw [hc] at h'
      omega
    · exact hni (hc ▸ h')
  refine ⟨?_, ?_, ?_, ?_, ?_, ?_, ?_, ?_, ?_, ?_, ?_, ?_⟩
  · -- freeCycle untouched
    refine dchain_congr hnodesEq
      (dchain_setNode_attr _ (fun _ => rfl) (fun _ => rfl)
        (dcycle_linkInto_frame WhichList.IN_USE_LIST
          (show anchorOf WhichList.IN_USE_LIST = inUseAnchor from rfl) hhd.1 hn1 hheadn
          inv.freeCycle ?_))
    intro u hu
    have hubound : u = freeAnchor ∨ 2 ≤ u := by
      rcases hu with h' | h'
      · exact Or.inl h'
      · exact Or.inr (inv.freeBounded u h').1
    refine ⟨?_, ?_, ?_⟩
    · rcases hubound with h' | h' <;> omega
    · rcases hu with h' | h'
      · omega
      · exact fun hc => hnf (hc ▸ h')
    · intro hc
      rcases List.mem_cons.mp hheadmem with h2 | h2
      · have hu1 : u = inUseAnchor := hc.trans h2
        rcases hubound with h' | h' <;> omega
      · have hui : u ∈ inUseL := by rw [hc]; exact h2
        rcases hu with h' | h'
        · have := (inv.inUseBounded u hui).1
          omega
        · exact hdisj u h' hui
  · -- inUseCycle gains n at the front
    exact dchain_congr hnodesEq
      (dchain_setNode_attr _ (fun _ => rfl) (fun _ => rfl)
        (dcycle_linkInto WhichList.IN_USE_LIST inUseL inv.inUseCycle hn1 hni h1ni
          inv.nodup.of_append_right))
  · rw [Eager_alloc s n hn]
    exact inv.allocBound
  · intro u hu
    rw [Eager_alloc s n hn]
    exact inv.freeBounded u hu
  · intro u hu
    rw [Eager_alloc s n hn]
    rcases List.mem_cons.mp hu with h' | h'
    · exact h' ▸ ⟨hn2, hna⟩
    · exact inv.inUseBounded u h'
  · refine List.nodup_middle.mpr (List.nodup_cons.mpr ⟨?_, inv.nodup⟩)
    intro hc
    rcases List.mem_append.mp hc with h' | h'
    · exact hnf h'
    · exact hni h'
  · intro n' hn'
    rw [Eager_lazyState s n hn] at hn'
    cases hn'
  · rw [Eager_lazy s n hn, Eager_lazyState s n hn]
  · intro k hk2 hka
    rw [Eager_alloc s n hn] at hka
    rcases inv.partition k hk2 hka with h' | h' | h'
    · exact Or.inl h'
    · exact Or.inr (Or.inl (List.mem_cons_of_mem n h'))
    · rw [hn] at h'
      cases h'
      exact Or.inr (Or.inl (List.mem_cons_self _ _))
  · intro u m hm
    rw [Eager_tls s n hn] at hm
    rcases inv.tlsSound u m hm with h' | h'
    · exact Or.inl (List.mem_cons_of_mem n h')
    · rw [hn] at h'
      cases h'.2
      exact Or.inl (List.mem_cons_self _ _)
  · intro u v m hu hv
    rw [Eager_tls s n hn] at hu hv
    exact inv.tlsInj u v m hu hv
  · intro t' ht'
    rw [Eager_lazy s n hn] at ht'
    cases ht'

theorem setNode_alloc (s : TMState) (n : Nat) (f : Node → Node) :
    (setNode s n f).alloc = s.alloc := rfl

theorem setNode_tls (s : TMState) (n : Nat) (f : Node → Node) :
    (setNode s n f).threadStateTLS = s.threadStateTLS := rfl

theorem setNode_lazy (s : TMState) (n : Nat) (f : Node → Node) :
    (setNode s n f).lazilyArchivedThread = s.lazilyArchivedThread := rfl

theorem setNode_lazyState (s : TMState) (n : Nat) (f : Node → Node) :
    (setNode s n f).lazilyArchivedThreadState = s.lazilyArchivedThreadState := rfl

theorem Unlink_alloc (s : TMState) (n : Nat) : (Unlink s n).alloc = s.alloc := rfl

theorem Unlink_tls (s : TMState) (n : Nat) :
    (Unlink s n).threadStateTLS = s.threadStateTLS := rfl

theorem Unlink_lazy (s : TMState) (n : Nat) :
    (Unlink s n).lazilyArchivedThread = s.lazilyArchivedThread := rfl

theorem Unlink_lazyState (s : TMState) (n : Nat) :
    (Unlink s n).lazilyArchivedThreadState = s.lazilyArchivedThreadState := rfl

theorem LinkInto_alloc (s : TMState) (l : WhichList) (n : Nat) :
    (LinkInto s l n).alloc = s.alloc := rfl

theorem LinkInto_tls (s : TMState) (l : WhichList) (n : Nat) :
    (LinkInto s l n).threadStateTLS = s.threadStateTLS := rfl

theorem LinkInto_lazy (s : TMState) (l : WhichList) (n : Nat) :
    (LinkInto s l n).lazilyArchivedThread = s.lazilyArchivedThread := rfl

theorem LinkInto_lazyState (s : TMState) (l : WhichList) (n : Nat) :
    (LinkInto s l n).lazilyArchivedThreadState = s.lazilyArchivedThreadState := rfl

theorem RestoreThreadTail_none (s : TMState) (t : Nat)
    (hm : s.threadStateTLS t = none) :
    RestoreThreadTail s t = (false, s, [Ev.initThread]) := by
  unfold RestoreThreadTail
  rw [hm]

theorem RestoreThreadTail_eq_true (s : TMState) (t m : Nat)
    (hm : s.threadStateTLS t = some m)
    (hflag : (s.nodes m).terminateOnRestore = true) :
    RestoreThreadTail s t =
      (true,
       LinkInto (Unlink (setNode (setNode
           { s with
             live := ((s.nodes m).data).getD 0,
             threadStateTLS := Function.update s.threadStateTLS t none }
           m (fun nd => { nd with terminateOnRestore := false }))
           m (fun nd => { nd with id := kInvalidId })) m) WhichList.FREE_LIST m,
       restoreOrder.map Ev.subsysRestore ++ [Ev.terminateRequest]) := by
  unfold RestoreThreadTail
  rw [hm]
  simp only [hflag, if_true]

theorem RestoreThreadTail_eq_false (s : TMState) (t m : Nat)
    (hm : s.threadStateTLS t = some m)
    (hflag : (s.nodes m).terminateOnRestore = false) :
    RestoreThreadTail s t =
      (true,
       LinkInto (Unlink (setNode
           { s with
             live := ((s.nodes m).data).getD 0,
             threadStateTLS := Function.update s.threadStateTLS t none }
           m (fun nd => { nd with id := kInvalidId })) m) WhichList.FREE_LIST m,
       restoreOrder.map Ev.subsysRestore) := by
  unfold RestoreThreadTail
  rw [hm]
  simp only [hflag, Bool.false_eq_true, if_false, List.append_nil]

theorem RestoreThreadTail_state (s : TMState) (t m : Nat)
    (hm : s.threadStateTLS t = some m) :
    ∃ sQ : TMState,
      (RestoreThreadTail s t).2.1
        = LinkInto (Unlink (setNode sQ m (fun nd => { nd with id := kInvalidId })) m)
            WhichList.FREE_LIST m ∧
      (∀ k, (sQ.nodes k).next = (s.nodes k).next) ∧
      (∀ k, (sQ.nodes k).prev = (s.nodes k).prev) ∧
      (∀ k, (sQ.nodes k).data = (s.nodes k).data) ∧
      sQ.threadStateTLS = Function.update s.threadStateTLS t none ∧
      sQ.lazilyArchivedThread = s.lazilyArchivedThread ∧
      sQ.lazilyArchivedThreadState = s.lazilyArchivedThreadState ∧
      sQ.alloc = s.alloc ∧
      (RestoreThreadTail s t).1 = true ∧
      (∃ tl, (RestoreThreadTail s t).2.2 = restoreOrder.map Ev.subsysRestore ++ tl) := by
  by_cases hflag : (s.nodes m).terminateOnRestore = true
  · refine ⟨setNode { s with
        live := ((s.nodes m).data).getD 0,
        threadStateTLS := Function.update s.threadStateTLS t none }
        m (fun nd => { nd with terminateOnRestore := false }),
      by rw [RestoreThreadTail_eq_true s t m hm hflag],
      fun k => setNode_proj Node.next _ _ _ rfl k,
      fun k => setNode_proj Node.prev _ _ _ rfl k,
      fun k => setNode_proj Node.data _ _ _ rfl k,
      rfl, rfl, rfl, rfl,
      by rw [RestoreThreadTail_eq_true s t m hm hflag],
      ⟨[Ev.terminateRequest], by rw [RestoreThreadTail_eq_true s t m hm hflag]⟩⟩
  · have hflag' : (s.nodes m).terminateOnRestore = false := by
      cases h : (s.nodes m).terminateOnRestore
      · rfl
      · exact absurd h hflag
    refine ⟨({ s with
        live := ((s.nodes m).data).getD 0,
        threadStateTLS := Function.update s.threadStateTLS t none } : TMState),
      by rw [RestoreThreadTail_eq_false s t m hm hflag'],
      fun k => rfl, fun k => rfl, fun k => rfl,
      rfl, rfl, rfl, rfl,
      by rw [RestoreThreadTail_eq_false s t m hm hflag'],
      ⟨[], by rw [RestoreThreadTail_eq_false s t m hm hflag', List.append_nil]⟩⟩

theorem Inv_restoreTail {s : TMState} {freeL inUseL : List Nat} {t m : Nat}
    (inv : Inv s freeL inUseL)
    (hlazy : s.lazilyArchivedThreadState = none)
    (hm : s.threadStateTLS t = some m) :
    ∃ L1 L2, inUseL = L1 ++ m :: L2 ∧
      Inv (RestoreThreadTail s t).2.1 (m :: freeL) (L1 ++ L2) ∧
      (RestoreThreadTail s t).2.1.threadStateTLS
        = Function.update s.threadStateTLS t none ∧
      (∀ k, ((RestoreThreadTail s t).2.1.nodes k).data = (s.nodes k).data) ∧
      (RestoreThreadTail s t).1 = true ∧
      (∃ tl, (RestoreThreadTail s t).2.2 = restoreOrder.map Ev.subsysRestore ++ tl) := by
  have h0eq : freeAnchor = 0 := rfl
  have h1eq : inUseAnchor = 1 := rfl
  have hlzT : s.lazilyArchivedThread = none := by
    cases h : s.lazilyArchivedThread with
    | none => rfl
    | some u =>
      have h2 := inv.lazyPaired.mp (by rw [h]; rfl)
      rw [hlazy] at h2
      simp at h2
  have hmem : m ∈ inUseL := by
    rcases inv.tlsSound t m hm with h' | h'
    · exact h'
    · rw [hlazy] at h'
      cases h'.2
  obtain ⟨L1, L2, hsplit⟩ := List.append_of_mem hmem
  obtain ⟨hm2, hmlt⟩ := inv.inUseBounded m hmem
  obtain ⟨sQ, hsq, hnext, hprev, hdata, htlsQ, hlzQ, hlzsQ, hallocQ, hret, htrace⟩ :=
    RestoreThreadTail_state s t m hm
  obtain ⟨sR, hsRdef⟩ : ∃ sR, sR = setNode sQ m (fun nd => { nd with id := kInvalidId }) :=
    ⟨_, rfl⟩
  rw [← hsRdef] at hsq
  have hRnext : ∀ k, (sR.nodes k).next = (s.nodes k).next := fun k => by
    rw [hsRdef]
    exact (setNode_proj Node.next _ _ _ rfl k).trans (hnext k)
  have hRprev : ∀ k, (sR.nodes k).prev = (s.nodes k).prev := fun k => by
    rw [hsRdef]
    exact (setNode_proj Node.prev _ _ _ rfl k).trans (hprev k)
  have hRdata : ∀ k, (sR.nodes k).data = (s.nodes k).data := fun k => by
    rw [hsRdef]
    exact (setNode_proj Node.data _ _ _ rfl k).trans (hdata k)
  have hRtls : sR.threadStateTLS = Function.update s.threadStateTLS t none := by
    rw [hsRdef, setNode_tls, htlsQ]
  have hRlz : sR.lazilyArchivedThread = none := by
    rw [hsRdef, setNode_lazy, hlzQ, hlzT]
  have hRlzs : sR.lazilyArchivedThreadState = none := by
    rw [hsRdef, setNode_lazyState, hlzsQ, hlazy]
  have hRalloc : sR.alloc = s.alloc := by
    rw [hsRdef, setNode_alloc, hallocQ]
  have hdisjFI : ∀ u, u ∈ freeL → u ∈ inUseL → False := fun u h1 h2 =>
    List.disjoint_of_nodup_append inv.nodup h1 h2
  have hmfree : m ∉ freeL := fun hc => hdisjFI m hc hmem
  have h0free : freeAnchor ∉ freeL := fun hc => by
    have := (inv.freeBounded _ hc).1
    omega
  have h1inuse : inUseAnchor ∉ inUseL := fun hc => by
    have := (inv.inUseBounded _ hc).1
    omega
  have hndIU : inUseL.Nodup := inv.nodup.of_append_right
  have hndIU' : (L1 ++ m :: L2).Nodup := hsplit ▸ hndIU
  have hndA : (inUseAnchor :: (L1 ++ m :: L2)).Nodup :=
    List.nodup_cons.mpr ⟨fun hc => h1inuse (by rw [hsplit]; exact hc), hndIU'⟩
  have hmid := List.nodup_cons.mp (List.nodup_middle.mp hndIU')
  have hmL2 : m ∉ L2 := fun hc => hmid.1 (List.mem_append.mpr (Or.inr hc))
  have hL1sub : ∀ u, u ∈ L1 → u ∈ inUseL := fun u hu => by
    rw [hsplit]
    exact List.mem_append.mpr (Or.inl hu)
  have hL2sub : ∀ u, u ∈ L2 → u ∈ inUseL := fun u hu => by
    rw [hsplit]
    exact List.mem_append.mpr (Or.inr (List.mem_cons_of_mem m hu))
  have h12sub : ∀ u, u ∈ L1 ++ L2 → u ∈ inUseL := fun u hu => by
    rcases List.mem_append.mp hu with h' | h'
    · exact hL1sub u h'
    · exact hL2sub u h'
  have hfreeR : dcycle sR freeAnchor freeL :=
    dchain_frame freeL freeAnchor (fun u _ => hRnext u) (fun u _ => hRprev u)
      inv.freeCycle
  have hinuseR : dcycle sR inUseAnchor (L1 ++ m :: L2) := by
    have h := inv.inUseCycle
    rw [hsplit] at h
    exact dchain_frame _ inUseAnchor (fun u _ => hRnext u) (fun u _ => hRprev u) h
  have hUinuse : dcycle (Unlink sR m) inUseAnchor (L1 ++ L2) :=
    dcycle_unlink L1 L2 hinuseR hndA
  obtain ⟨hc1, hc2⟩ := (dchain_append L1 inUseAnchor L2).mp hinuseR
  have hlast := dchain_last L1 inUseAnchor hc1
  have hhead := dchain_head L2 m hc2
  have hqne : headOf L2 inUseAnchor ≠ m := by
    intro hc
    rcases List.mem_cons.mp (headOf_mem L2 inUseAnchor) with h' | h'
    · have := hc.symm.trans h'
      omega
    · exact hmL2 (hc ▸ h')
  have hallF : ∀ u, u = freeAnchor ∨ u ∈ freeL →
      u ≠ lastOf L1 inUseAnchor ∧ u ≠ headOf L2 inUseAnchor := by
    intro u hu
    have hu0 : u = freeAnchor ∨ (2 ≤ u ∧ u ∈ freeL) := by
      rcases hu with h' | h'
      · exact Or.inl h'
      · exact Or.inr ⟨(inv.freeBounded u h').1, h'⟩
    constructor
    · intro hc
      rcases List.mem_cons.mp (lastOf_mem L1 inUseAnchor) with h' | h'
      · have := hc.trans h'
        rcases hu0 with h'' | ⟨h'', _⟩ <;> omega
      · have humem : u ∈ inUseL := hL1sub u (by rw [hc]; exact h')
        rcases hu0 with h'' | ⟨_, h''⟩
        · have := (inv.inUseBounded u humem).1
          omega
        · exact hdisjFI u h'' humem
    · intro hc
      rcases List.mem_cons.mp (headOf_mem L2 inUseAnchor) with h' | h'
      · have := hc.trans h'
        rcases hu0 with h'' | ⟨h'', _⟩ <;> omega
      · have humem : u ∈ inUseL := hL2sub u (by rw [hc]; exact h')
        rcases hu0 with h'' | ⟨_, h''⟩
        · have := (inv.inUseBounded u humem).1
          omega
        · exact hdisjFI u h'' humem
  have hUfree : dcycle (Unlink sR m) freeAnchor freeL :=
    dcycle_unlink_frame hlast.2 hhead.1 hqne hfreeR hallF
  have hndF : freeL.Nodup := inv.nodup.of_append_left
  have hmfa : m ≠ anchorOf WhichList.FREE_LIST := by
    show m ≠ freeAnchor
    omega
  have hnewFree :
      dcycle (LinkInto (Unlink sR m) WhichList.FREE_LIST m) freeAnchor (m :: freeL) :=
    dcycle_linkInto WhichList.FREE_LIST freeL
      (show dcycle (Unlink sR m) (anchorOf WhichList.FREE_LIST) freeL from hUfree)
      hmfa hmfree
      (show anchorOf WhichList.FREE_LIST ∉ freeL from h0free)
      hndF
  have hfhead := dchain_head freeL freeAnchor hUfree
  have hhne : headOf freeL freeAnchor ≠ m := by
    intro hc
    rcases List.mem_cons.mp (headOf_mem freeL freeAnchor) with h' | h'
    · have := hc.symm.trans h'
      omega
    · exact hmfree (by rw [← hc]; exact h')
  have hallI : ∀ u, u = inUseAnchor ∨ u ∈ L1 ++ L2 →
      u ≠ freeAnchor ∧ u ≠ m ∧ u ≠ headOf freeL freeAnchor := by
    intro u hu
    rcases hu with h' | h'
    · subst h'
      refine ⟨by omega, by omega, ?_⟩
      intro hc
      rcases List.mem_cons.mp (headOf_mem freeL freeAnchor) with h'' | h''
      · have := hc.trans h''
        omega
      · have humem : inUseAnchor ∈ freeL := by rw [hc]; exact h''
        have := (inv.freeBounded _ humem).1
        omega
    · have humem : u ∈ inUseL := h12sub u h'
      have hub := (inv.inUseBounded u humem).1
      refine ⟨by omega, ?_, ?_⟩
      · intro hc
        exact hmid.1 (hc ▸ h')
      · intro hc
        rcases List.mem_cons.mp (headOf_mem freeL freeAnchor) with h'' | h''
        · have := hc.trans h''
          omega
        · exact hdisjFI u (by rw [hc]; exact h'') humem
  have hnewInUse :
      dcycle (LinkInto (Unlink sR m) WhichList.FREE_LIST m) inUseAnchor (L1 ++ L2) :=
    dcycle_linkInto_frame WhichList.FREE_LIST
      (show anchorOf WhichList.FREE_LIST = freeAnchor from rfl)
      hfhead.1 (show m ≠ freeAnchor by omega) hhne hUinuse hallI
  have hallocE : (RestoreThreadTail s t).2.1.alloc = s.alloc := by
    rw [hsq, LinkInto_alloc, Unlink_alloc, hRalloc]
  have htlsE : (RestoreThreadTail s t).2.1.threadStateTLS
      = Function.update s.threadStateTLS t none := by
    rw [hsq, LinkInto_tls, Unlink_tls, hRtls]
  have hlzE : (RestoreThreadTail s t).2.1.lazilyArchivedThread = none := by
    rw [hsq, LinkInto_lazy, Unlink_lazy, hRlz]
  have hlzsE : (RestoreThreadTail s t).2.1.lazilyArchivedThreadState = none := by
    rw [hsq, LinkInto_lazyState, Unlink_lazyState, hRlzs]
  have hdataE : ∀ k, ((RestoreThreadTail s t).2.1.nodes k).data = (s.nodes k).data := by
    intro k
    rw [hsq, LinkInto_proj Node.data (fun _ _ => rfl) (fun _ _ => rfl),
      Unlink_proj Node.data (fun _ _ => rfl) (fun _ _ => rfl), hRdata]
  refine ⟨L1, L2, hsplit, ?_, htlsE, hdataE, hret, htrace⟩
  refine ⟨?_, ?_, ?_, ?_, ?_, ?_, ?_, ?_, ?_, ?_, ?_, ?_⟩
  · rw [hsq]
    exact hnewFree
  · rw [hsq]
    exact hnewInUse
  · rw [hallocE]
    exact inv.allocBound
  · intro u hu
    rw [hallocE]
    rcases List.mem_cons.mp hu with h' | h'
    · subst h'
      exact ⟨hm2, hmlt⟩
    · exact inv.freeBounded u h'
  · intro u hu
    rw [hallocE]
    exact inv.inUseBounded u (h12sub u hu)
  · show ((m :: freeL) ++ (L1 ++ L2)).Nodup
    have h1 : ((freeL ++ L1) ++ m :: L2).Nodup := by
      have h := inv.nodup
      rw [hsplit, ← List.append_assoc] at h
      exact h
    have h2 := List.nodup_middle.mp h1
    rw [List.cons_append, ← List.append_assoc]
    exact h2
  · intro n hn
    rw [hlzsE] at hn
    cases hn
  · rw [hlzE, hlzsE]
  · intro n hn2 hna
    rw [hallocE] at hna
    rcases inv.partition n hn2 hna with h' | h' | h'
    · exact Or.inl (List.mem_cons_of_mem m h')
    · rw [hsplit] at h'
      rcases List.mem_append.mp h' with h'' | h''
      · exact Or.inr (Or.inl (List.mem_append.mpr (Or.inl h'')))
      · rcases List.mem_cons.mp h'' with h3 | h3
        · exact Or.inl (by rw [h3]; exact List.mem_cons_self m freeL)
        · exact Or.inr (Or.inl (List.mem_append.mpr (Or.inr h3)))
    · rw [hlazy] at h'
      cases h'
  · intro u m' hm'
    rw [htlsE, Function.update_apply] at hm'
    by_cases hut : u = t
    · rw [if_pos hut] at hm'
      cases hm'
    · rw [if_neg hut] at hm'
      rcases inv.tlsSound u m' hm' with h' | h'
      · have hne : m' ≠ m := fun hc =>
          hut (inv.tlsInj u t m' hm' (by rw [hc]; exact hm))
        rw [hsplit] at h'
        rcases List.mem_append.mp h' with h'' | h''
        · exact Or.inl (List.mem_append.mpr (Or.inl h''))
        · rcases List.mem_cons.mp h'' with h3 | h3
          · exact absurd h3 hne
          · exact Or.inl (List.mem_append.mpr (Or.inr h3))
      · rw [hlzT] at h'
        cases h'.1
  · intro u v m' hu hv
    rw [htlsE, Function.update_apply] at hu hv
    by_cases hut : u = t
    · rw [if_pos hut] at hu
      cases hu
    · rw [if_neg hut] at hu
      by_cases hvt : v = t
      · rw [if_pos hvt] at hv
        cases hv
      · rw [if_neg hvt] at hv
        exact inv.tlsInj u v m' hu hv
  · intro t' ht'
    rw [hlzE] at ht'
    cases ht'

theorem RestoreThread_lazySelf_eq (s : TMState) (t n : Nat)
    (hlz : s.lazilyArchivedThread = some t)
    (hn : s.lazilyArchivedThreadState = some n) :
    RestoreThread s t =
      (true,
       { LinkInto (setNode { s with lazilyArchivedThread := none } n
           (fun nd => { nd with id := kInvalidId })) WhichList.FREE_LIST n with
         lazilyArchivedThreadState := none,
         threadStateTLS := Function.update s.threadStateTLS t none },
       []) := by
  simp only [RestoreThread]
  rw [if_pos hlz, hn]
  rfl

theorem RestoreThread_lazySelf_nodes (s : TMState) (t n : Nat)
    (hlz : s.lazilyArchivedThread = some t)
    (hn : s.lazilyArchivedThreadState = some n) :
    (RestoreThread s t).2.1.nodes
      = (LinkInto (setNode { s with lazilyArchivedThread := none } n
          (fun nd => { nd with id := kInvalidId })) WhichList.FREE_LIST n).nodes := by
  rw [RestoreThread_lazySelf_eq s t n hlz hn]

theorem RestoreThread_lazySelf_id (s : TMState) (t n : Nat)
    (hlz : s.lazilyArchivedThread = some t)
    (hn : s.lazilyArchivedThreadState = some n) :
    ((RestoreThread s t).2.1.nodes n).id = kInvalidId := by
  rw [RestoreThread_lazySelf_nodes s t n hlz hn,
    LinkInto_proj Node.id (fun _ _ => rfl) (fun _ _ => rfl), setNode_nodes, if_pos rfl]

theorem RestoreThread_lazySelf_data (s : TMState) (t n k : Nat)
    (hlz : s.lazilyArchivedThread = some t)
    (hn : s.lazilyArchivedThreadState = some n) :
    ((RestoreThread s t).2.1.nodes k).data = (s.nodes k).data := by
  rw [RestoreThread_lazySelf_nodes s t n hlz hn,
    LinkInto_proj Node.data (fun _ _ => rfl) (fun _ _ => rfl),
    setNode_proj Node.data _ _ _ rfl]

theorem Inv_lazySelf {s : TMState} {freeL inUseL : List Nat} {t n : Nat}
    (inv : Inv s freeL inUseL)
    (hlz : s.lazilyArchivedThread = some t)
    (hn : s.lazilyArchivedThreadState = some n) :
    Inv (RestoreThread s t).2.1 (n :: freeL) inUseL := by
  have h0eq : freeAnchor = 0 := rfl
  have h1eq : inUseAnchor = 1 := rfl
  obtain ⟨hn2, hna, hnf, hni⟩ := inv.lazyDetached n hn
  have hE := RestoreThread_lazySelf_eq s t n hlz hn
  have hnodesE := RestoreThread_lazySelf_nodes s t n hlz hn
  have hallocE : (RestoreThread s t).2.1.alloc = s.alloc := by
    rw [hE]
    rfl
  have htlsE : (RestoreThread s t).2.1.threadStateTLS
      = Function.update s.threadStateTLS t none := by
    rw [hE]
  have hlzE : (RestoreThread s t).2.1.lazilyArchivedThread = none := by
    rw [hE]
    rfl
  have hlzsE : (RestoreThread s t).2.1.lazilyArchivedThreadState = none := by
    rw [hE]
  have hdisjFI : ∀ u, u ∈ freeL → u ∈ inUseL → False := fun u h1 h2 =>
    List.disjoint_of_nodup_append inv.nodup h1 h2
  have h0free : freeAnchor ∉ freeL := fun hc => by
    have := (inv.freeBounded _ hc).1
    omega
  have hndF : freeL.Nodup := inv.nodup.of_append_left
  have hfree1 : dcycle (setNode s n (fun nd => { nd with id := kInvalidId }))
      freeAnchor freeL :=
    dchain_frame freeL freeAnchor
      (fun u _ => setNode_proj Node.next _ _ _ rfl u)
      (fun u _ => setNode_proj Node.prev _ _ _ rfl u) inv.freeCycle
  have hinuse1 : dcycle (setNode s n (fun nd => { nd with id := kInvalidId }))
      inUseAnchor inUseL :=
    dchain_frame inUseL inUseAnchor
      (fun u _ => setNode_proj Node.next _ _ _ rfl u)
      (fun u _ => setNode_proj Node.prev _ _ _ rfl u) inv.inUseCycle
  have hnewF : dcycle (LinkInto (setNode s n
      (fun nd => { nd with id := kInvalidId })) WhichList.FREE_LIST n)
      freeAnchor (n :: freeL) :=
    dcycle_linkInto WhichList.FREE_LIST freeL
      (show dcycle _ (anchorOf WhichList.FREE_LIST) freeL from hfree1)
      (show n ≠ anchorOf WhichList.FREE_LIST by
        show n ≠ freeAnchor
        omega)
      hnf (show anchorOf WhichList.FREE_LIST ∉ freeL from h0free) hndF
  have hfhead := dchain_head freeL freeAnchor hfree1
  have hhne : headOf freeL freeAnchor ≠ n := by
    intro hc
    rcases List.mem_cons.mp (headOf_mem freeL freeAnchor) with h' | h'
    · have := hc.symm.trans h'
      omega
    · exact hnf (by rw [← hc]; exact h')
  have hallI : ∀ u, u = inUseAnchor ∨ u ∈ inUseL →
      u ≠ freeAnchor ∧ u ≠ n ∧ u ≠ headOf freeL freeAnchor := by
    intro u hu
    rcases hu with h' | h'
    · subst h'
      refine ⟨by omega, by omega, ?_⟩
      intro hc
      rcases List.mem_cons.mp (headOf_mem freeL freeAnchor) with h'' | h''
      · have := hc.trans h''
        omega
      · have humem : inUseAnchor ∈ freeL := by rw [hc]; exact h''
        have := (inv.freeBounded _ humem).1
        omega
    · have hub := (inv.inUseBounded u h').1
      refine ⟨by omega, fun hc => hni (hc ▸ h'), ?_⟩
      intro hc
      rcases List.mem_cons.mp (headOf_mem freeL freeAnchor) with h'' | h''
      · have := hc.trans h''
        omega
      · exact hdisjFI u (by rw [hc]; exact h'') h'
  have hnewI : dcycle (LinkInto (setNode s n
      (fun nd => { nd with id := kInvalidId })) WhichList.FREE_LIST n)
      inUseAnchor inUseL :=
    dcycle_linkInto_frame WhichList.FREE_LIST
      (show anchorOf WhichList.FREE_LIST = freeAnchor from rfl)
      hfhead.1 (show n ≠ freeAnchor by omega) hhne hinuse1 hallI
  have hnodes2 : (RestoreThread s t).2.1.nodes
      = (LinkInto (setNode s n (fun nd => { nd with id := kInvalidId }))
          WhichList.FREE_LIST n).nodes := by
    rw [hE]
    rfl
  refine ⟨?_, ?_, ?_, ?_, ?_, ?_, ?_, ?_, ?_, ?_, ?_, ?_⟩
  · exact dchain_congr hnodes2 hnewF
  · exact dchain_congr hnodes2 hnewI
  · rw [hallocE]
    exact inv.allocBound
  · intro u hu
    rw [hallocE]
    rcases List.mem_cons.mp hu with h' | h'
    · subst h'
      exact ⟨hn2, hna⟩
    · exact inv.freeBounded u h'
  · intro u hu
    rw [hallocE]
    exact inv.inUseBounded u hu
  · rw [List.cons_append]
    refine List.nodup_cons.mpr ⟨?_, inv.nodup⟩
    intro hc
    rcases List.mem_append.mp hc with h' | h'
    · exact hnf h'
    · exact hni h'
  · intro k hk
    rw [hlzsE] at hk
    cases hk
  · rw [hlzE, hlzsE]
  · intro k hk2 hka
    rw [hallocE] at hka
    rcases inv.partition k hk2 hka with h' | h' | h'
    · exact Or.inl (List.mem_cons_of_mem n h')
    · exact Or.inr (Or.inl h')
    · rw [hn] at h'
      cases h'
      exact Or.inl (List.mem_cons_self _ _)
  · intro u m' hm'
    rw [htlsE, Function.update_apply] at hm'
    by_cases hut : u = t
    · rw [if_pos hut] at hm'
      cases hm'
    · rw [if_neg hut] at hm'
      rcases inv.tlsSound u m' hm' with h' | h'
      · exact Or.inl h'
      · rw [hlz] at h'
        exact absurd (Option.some.inj h'.1) (fun hc => hut hc.symm)
  · intro u v m' hu hv
    rw [htlsE, Function.update_apply] at hu hv
    by_cases hut : u = t
    · rw [if_pos hut] at hu
      cases hu
    · rw [if_neg hut] at hu
      by_cases hvt : v = t
      · rw [if_pos hvt] at hv
        cases hv
      · rw [if_neg hvt] at hv
        exact inv.tlsInj u v m' hu hv
  · intro t' ht'
    rw [hlzE] at ht'
    cases ht'

theorem Inv_initState : Inv initState [] [] := by
  refine ⟨⟨rfl, rfl⟩, ⟨rfl, rfl⟩, le_refl 2, ?_, ?_, List.nodup_nil, ?_, Iff.rfl, ?_, ?_, ?_, ?_⟩
  · intro u hu
    cases hu
  · intro u hu
    cases hu
  · intro n h
    cases h
  · intro n h2 ha
    have hA : initState.alloc = 2 := rfl
    exfalso
    omega
  · intro u m h
    cases h
  · intro u v m hu hv
    cases hu
  · intro t h
    cases h

/-- Claim C2: lazy-archive elision — starting from any state satisfying the
list invariant, if thread `t` (meeting `ArchiveThread`'s asserted
preconditions) calls `ArchiveThread` and then `RestoreThread` with no
intervening operation, no subsystem `Archive` or `Restore` event is emitted
(both traces are empty), `RestoreThread` returns `true`, and the Thread
State obtained by `ArchiveThread` ends up at the head of the free list with
its id reset to `kInvalidId` and its buffer contents unchanged from the
moment it was obtained. -/
theorem C2_lazy_elision (s : TMState) (freeL inUseL : List Nat) (t : Nat)
    (inv : Inv s freeL inUseL) (pre : ArchiveThreadPre s t) :
    (ArchiveThread s t).2 = [] ∧
    (RestoreThread (ArchiveThread s t).1 t).1 = true ∧
    (RestoreThread (ArchiveThread s t).1 t).2.2 = [] ∧
    ((RestoreThread (ArchiveThread s t).1 t).2.1.nodes (GetFree s).1).id = kInvalidId ∧
    ((RestoreThread (ArchiveThread s t).1 t).2.1.nodes (GetFree s).1).data
      = ((GetFree s).2.nodes (GetFree s).1).data ∧
    ∃ freeL', Inv (RestoreThread (ArchiveThread s t).1 t).2.1
        ((GetFree s).1 :: freeL') inUseL := by
  have hlz1 : (ArchiveThread s t).1.lazilyArchivedThread = some t :=
    ArchiveThread_lazy s t
  have hn1 : (ArchiveThread s t).1.lazilyArchivedThreadState = some (GetFree s).1 :=
    ArchiveThread_lazyState s t
  obtain ⟨freeL', inv1⟩ := Inv_archive inv pre
  refine ⟨rfl, ?_, ?_, ?_, ?_, ⟨freeL', Inv_lazySelf inv1 hlz1 hn1⟩⟩
  · rw [RestoreThread_lazySelf_eq _ t (GetFree s).1 hlz1 hn1]
  · rw [RestoreThread_lazySelf_eq _ t (GetFree s).1 hlz1 hn1]
  · exact RestoreThread_lazySelf_id _ t (GetFree s).1 hlz1 hn1
  · exact (RestoreThread_lazySelf_data _ t (GetFree s).1 (GetFree s).1 hlz1 hn1).trans
      (ArchiveThread_data s t (GetFree s).1)

theorem C2_lazy_elision_witness :
    Inv initState [] [] ∧ ArchiveThreadPre initState 1 ∧
    ((ArchiveThread initState 1).2 = [] ∧
     (RestoreThread (ArchiveThread initState 1).1 1).1 = true ∧
     (RestoreThread (ArchiveThread initState 1).1 1).2.2 = [] ∧
     ((RestoreThread (ArchiveThread initState 1).1 1).2.1.nodes
        (GetFree initState).1).id = kInvalidId ∧
     ((RestoreThread (ArchiveThread initState 1).1 1).2.1.nodes
        (GetFree initState).1).data
       = ((GetFree initState).2.nodes (GetFree initState).1).data ∧
     ∃ freeL', Inv (RestoreThread (ArchiveThread initState 1).1 1).2.1
         ((GetFree initState).1 :: freeL') []) :=
  ⟨Inv_initState, ⟨rfl, rfl⟩,
   C2_lazy_elision initState [] [] 1 Inv_initState ⟨rfl, rfl⟩⟩

theorem Inv_restore {s : TMState} {freeL inUseL : List Nat} (t : Nat)
    (inv : Inv s freeL inUseL) :
    ∃ fL iL, Inv (RestoreThread s t).2.1 fL iL := by
  by_cases hself : s.lazilyArchivedThread = some t
  · cases hls : s.lazilyArchivedThreadState with
    | none =>
      have h2 := inv.lazyPaired.mp (by rw [hself]; rfl)
      rw [hls] at h2
      simp at h2
    | some n => exact ⟨n :: freeL, inUseL, Inv_lazySelf inv hself hls⟩
  · cases hlz : s.lazilyArchivedThread with
    | some u =>
      have hs : s.lazilyArchivedThread.isSome = true := by
        rw [hlz]
        rfl
      cases hls : s.lazilyArchivedThreadState with
      | none =>
        have h2 := inv.lazyPaired.mp hs
        rw [hls] at h2
        simp at h2
      | some n =>
        have invE := Inv_eager inv hls
        have hE := RestoreThread_forceEager s t hs hself
        have hlzE : (EagerlyArchiveThread s).1.lazilyArchivedThreadState = none :=
          Eager_lazyState s n hls
        cases htls : (EagerlyArchiveThread s).1.threadStateTLS t with
        | none =>
          refine ⟨freeL, n :: inUseL, ?_⟩
          rw [hE, RestoreThreadTail_none _ t htls]
          exact invE
        | some m =>
          obtain ⟨L1, L2, hsplit, invT, _, _, _, _⟩ :=
            Inv_restoreTail invE hlzE htls
          refine ⟨m :: freeL, L1 ++ L2, ?_⟩
          rw [hE]
          exact invT
    | none =>
      have hEq := RestoreThread_noLazy s t hlz
      have hlzs : s.lazilyArchivedThreadState = none := Inv_lazyStateNone inv hlz
      cases htls : s.threadStateTLS t with
      | none =>
        refine ⟨freeL, inUseL, ?_⟩
        rw [hEq, RestoreThreadTail_none s t htls]
        exact inv
      | some m =>
        obtain ⟨L1, L2, hsplit, invT, _, _, _, _⟩ := Inv_restoreTail inv hlzs htls
        refine ⟨m :: freeL, L1 ++ L2, ?_⟩
        rw [hEq]
        exact invT

theorem Inv_reachable : ∀ s, TMReachable s → ∃ fL iL, Inv s fL iL := by
  intro s h
  induction h with
  | refl => exact ⟨[], [], Inv_initState⟩
  | tail h1 h2 ih =>
    obtain ⟨fL, iL, inv⟩ := ih
    cases h2 with
    | archive t' hpre =>
      obtain ⟨fL', hI⟩ := Inv_archive inv hpre
      exact ⟨fL', iL, hI⟩
    | eager hs =>
      obtain ⟨n, hn⟩ := Option.isSome_iff_exists.mp hs
      exact ⟨fL, n :: iL, Inv_eager inv hn⟩
    | restore t' => exact Inv_restore t' inv

theorem Inv_archive_init : Inv (ArchiveThread initState 1).1 [] [] := by
  have hT : (ArchiveThread initState 1).1.threadStateTLS
      = Function.update (fun _ => none) 1 (some 2) := rfl
  refine ⟨⟨rfl, rfl⟩, ⟨rfl, rfl⟩, by decide, fun n hn => absurd hn (List.not_mem_nil n),
    fun n hn => absurd hn (List.not_mem_nil n), by decide, ?_, by decide, ?_, ?_, ?_, ?_⟩
  · intro n h
    have h2 : some 2 = some n := h
    cases h2
    refine ⟨by decide, by decide, by decide, by decide⟩
  · intro n h2 h3
    have hA : (ArchiveThread initState 1).1.alloc = 3 := by decide
    have h3' : n < 3 := hA ▸ h3
    have hn2 : n = 2 := by omega
    subst hn2
    exact Or.inr (Or.inr rfl)
  · intro u m h
    rw [hT, Function.update_apply] at h
    by_cases hu : u = 1
    · rw [if_pos hu] at h
      cases h
      subst hu
      exact Or.inr ⟨rfl, rfl⟩
    · rw [if_neg hu] at h
      cases h
  · intro u v m hu hv
    rw [hT, Function.update_apply] at hu hv
    by_cases hu1 : u = 1
    · by_cases hv1 : v = 1
      · exact hu1.trans hv1.symm
      · rw [if_neg hv1] at hv
        cases hv
    · rw [if_neg hu1] at hu
      cases hu
  · intro t' h
    have h2 : some 1 = some t' := h
    cases h2
    rfl

/-- Claim C4 counterexample: the reachable state right after
`ArchiveThread`, during the lazy-archive window, holds an allocated
Thread State (node 2, with `alloc = 3`) that is a member of NEITHER
circular list — both pointer traversals from the sentinels are empty
while the state sits in the lazy slot — refuting the claim that every
Thread State is in exactly one of the two lists at every reachable
point including that interval. -/
theorem C4_counterexample :
    TMReachable (ArchiveThread initState 1).1 ∧
    (2 < (ArchiveThread initState 1).1.alloc ∧
     freeListMembers (ArchiveThread initState 1).1 = [] ∧
     inUseListMembers (ArchiveThread initState 1).1 = [] ∧
     (ArchiveThread initState 1).1.lazilyArchivedThreadState = some 2) :=
  ⟨Relation.ReflTransGen.single (TMStep.archive initState 1 ⟨rfl, rfl⟩), by decide⟩

/-- Claim C4 (amended): at every state reachable by `ArchiveThread`,
`EagerlyArchiveThread` and `RestoreThread` operations, the free and
in-use lists are sentinel-anchored circular doubly linked lists whose
real members are allocated non-sentinel states; every allocated Thread
State is in exactly one of the two lists EXCEPT the outstanding lazily
archived state (if any), which during the interval between
`ArchiveThread` and the subsequent eager archive or restore is in
neither list. -/
theorem C4_partition (s : TMState) (h : TMReachable s) :
    ∃ freeL inUseL,
      dcycle s freeAnchor freeL ∧
      dcycle s inUseAnchor inUseL ∧
      (∀ n, n ∈ freeL ++ inUseL → 2 ≤ n ∧ n < s.alloc) ∧
      (∀ n, s.lazilyArchivedThreadState = some n →
        2 ≤ n ∧ n < s.alloc ∧ n ∉ freeL ∧ n ∉ inUseL) ∧
      (∀ n, 2 ≤ n → n < s.alloc → s.lazilyArchivedThreadState ≠ some n →
        (n ∈ freeL ∧ n ∉ inUseL) ∨ (n ∈ inUseL ∧ n ∉ freeL)) := by
  obtain ⟨fL, iL, inv⟩ := Inv_reachable s h
  have hdisj : ∀ u, u ∈ fL → u ∈ iL → False := fun u a b =>
    List.disjoint_of_nodup_append inv.nodup a b
  refine ⟨fL, iL, inv.freeCycle, inv.inUseCycle, ?_, inv.lazyDetached, ?_⟩
  · intro n hn
    rcases List.mem_append.mp hn with h' | h'
    · exact inv.freeBounded n h'
    · exact inv.inUseBounded n h'
  · intro n h2 ha hne
    rcases inv.partition n h2 ha with h' | h' | h'
    · exact Or.inl ⟨h', fun hc => hdisj n h' hc⟩
    · exact Or.inr ⟨h', fun hc => hdisj n hc h'⟩
    · exact absurd h' hne

theorem C4_partition_witness :
    TMReachable (ArchiveThread initState 1).1 ∧
    (∃ freeL inUseL,
      dcycle (ArchiveThread initState 1).1 freeAnchor freeL ∧
      dcycle (ArchiveThread initState 1).1 inUseAnchor inUseL ∧
      (∀ n, n ∈ freeL ++ inUseL → 2 ≤ n ∧ n < (ArchiveThread initState 1).1.alloc) ∧
      (∀ n, (ArchiveThread initState 1).1.lazilyArchivedThreadState = some n →
        2 ≤ n ∧ n < (ArchiveThread initState 1).1.alloc ∧ n ∉ freeL ∧ n ∉ inUseL) ∧
      (∀ n, 2 ≤ n → n < (ArchiveThread initState 1).1.alloc →
        (ArchiveThread initState 1).1.lazilyArchivedThreadState ≠ some n →
        (n ∈ freeL ∧ n ∉ inUseL) ∨ (n ∈ inUseL ∧ n ∉ freeL))) :=
  ⟨Relation.ReflTransGen.single (TMStep.archive initState 1 ⟨rfl, rfl⟩),
   C4_partition (ArchiveThread initState 1).1
     (Relation.ReflTransGen.single (TMStep.archive initState 1 ⟨rfl, rfl⟩))⟩

/-- Claim C7 counterexample: with thread 1 the outstanding lazy-archive
candidate, thread 2's call to `ArchiveThread` does NOT commit thread 1's
state: no subsystem `Archive` event is emitted, the in-use list stays
empty, thread 1's Thread State buffer stays unwritten, and the call in
fact violates `ArchiveThread`'s own `ASSERT`ed precondition (the source
merely asserts; it never invokes `EagerlyArchiveThread`).  Only
`RestoreThread` forces the pending eager archive. -/
theorem C7_counterexample :
    (ArchiveThread initState 1).1.lazilyArchivedThread = some 1 ∧
    (ArchiveThread (ArchiveThread initState 1).1 2).2 = [] ∧
    inUseListMembers (ArchiveThread (ArchiveThread initState 1).1 2).1 = [] ∧
    ((ArchiveThread (ArchiveThread initState 1).1 2).1.nodes 2).data = none ∧
    ¬ ArchiveThreadPre (ArchiveThread initState 1).1 2 :=
  ⟨by decide, by decide, by decide, by decide,
   fun hpre => absurd hpre.1 (by decide)⟩

/-- Claim C7 (amended): the forced eager archive is performed by
`RestoreThread`, not by `ArchiveThread`.  If thread T is the outstanding
lazy-archive candidate with pending state n and a different thread U
calls `RestoreThread`, the call routes through `EagerlyArchiveThread`
first: every subsystem's `Archive` runs before anything else (the trace
begins with the full archive sequence), n is linked into the in-use list
with the serialized live data written to its buffer, and after U's
operation completes n is still an in-use list member with that data
intact. -/
theorem C7_forced_eager (s : TMState) (freeL inUseL : List Nat) (T U n : Nat)
    (inv : Inv s freeL inUseL)
    (hT : s.lazilyArchivedThread = some T)
    (hn : s.lazilyArchivedThreadState = some n)
    (hUT : U ≠ T) :
    (∃ tl, (RestoreThread s U).2.2 = archiveOrder.map Ev.subsysArchive ++ tl) ∧
    RestoreThread s U =
      ((RestoreThreadTail (EagerlyArchiveThread s).1 U).1,
       (RestoreThreadTail (EagerlyArchiveThread s).1 U).2.1,
       (EagerlyArchiveThread s).2
         ++ (RestoreThreadTail (EagerlyArchiveThread s).1 U).2.2) ∧
    Inv (EagerlyArchiveThread s).1 freeL (n :: inUseL) ∧
    ((EagerlyArchiveThread s).1.nodes n).data = some s.live ∧
    ∃ inUseL' freeL', Inv (RestoreThread s U).2.1 freeL' inUseL' ∧ n ∈ inUseL' ∧
      (((RestoreThread s U).2.1).nodes n).data = some s.live := by
  have hnself : ¬ s.lazilyArchivedThread = some U := by
    rw [hT]
    intro hc
    exact hUT (Option.some.inj hc).symm
  have hs : s.lazilyArchivedThread.isSome = true := by
    rw [hT]
    rfl
  have hE := RestoreThread_forceEager s U hs hnself
  have invE := Inv_eager inv hn
  have hdataE := Eager_data s n hn
  have htr := Eager_trace s n hn
  have hlzsE := Eager_lazyState s n hn
  refine ⟨⟨(RestoreThreadTail (EagerlyArchiveThread s).1 U).2.2, by rw [hE, htr]⟩,
    hE, invE, hdataE, ?_⟩
  cases htls : (EagerlyArchiveThread s).1.threadStateTLS U with
  | none =>
    have htail := RestoreThreadTail_none _ U htls
    exact ⟨n :: inUseL, freeL, by rw [hE, htail]; exact invE,
      List.mem_cons_self n inUseL, by rw [hE, htail]; exact hdataE⟩
  | some m =>
    obtain ⟨L1, L2, hsplit, invT, htlsT, hdataT, hretT, htrT⟩ :=
      Inv_restoreTail invE hlzsE htls
    have hmn : m ≠ n := by
      intro hc
      have hTtls : s.threadStateTLS T = some n := (inv.lazyTLS T hT).trans hn
      have h1 : (EagerlyArchiveThread s).1.threadStateTLS U = some n := by
        rw [htls, hc]
      have h2 : (EagerlyArchiveThread s).1.threadStateTLS T = some n := by
        rw [Eager_tls s n hn]
        exact hTtls
      exact hUT (invE.tlsInj U T n h1 h2)
    have hnmem : n ∈ L1 ++ L2 := by
      have h1 : n ∈ L1 ++ m :: L2 := by
        rw [← hsplit]
        exact List.mem_cons_self n inUseL
      rcases List.mem_append.mp h1 with h' | h'
      · exact List.mem_append.mpr (Or.inl h')
      · rcases List.mem_cons.mp h' with h'' | h''
        · exact absurd h''.symm hmn
        · exact List.mem_append.mpr (Or.inr h'')
    exact ⟨L1 ++ L2, m :: freeL, by rw [hE]; exact invT, hnmem,
      by rw [hE]; exact (hdataT n).trans hdataE⟩

theorem C7_forced_eager_witness :
    Inv (ArchiveThread initState 1).1 [] [] ∧
    (ArchiveThread initState 1).1.lazilyArchivedThread = some 1 ∧
    (ArchiveThread initState 1).1.lazilyArchivedThreadState = some 2 ∧
    (2 : Nat) ≠ 1 ∧
    ((∃ tl, (RestoreThread (ArchiveThread initState 1).1 2).2.2
        = archiveOrder.map Ev.subsysArchive ++ tl) ∧
     RestoreThread (ArchiveThread initState 1).1 2 =
       ((RestoreThreadTail (EagerlyArchiveThread (ArchiveThread initState 1).1).1 2).1,
        (RestoreThreadTail (EagerlyArchiveThread (ArchiveThread initState 1).1).1 2).2.1,
        (EagerlyArchiveThread (ArchiveThread initState 1).1).2
          ++ (RestoreThreadTail
               (EagerlyArchiveThread (ArchiveThread initState 1).1).1 2).2.2) ∧
     Inv (EagerlyArchiveThread (ArchiveThread initState 1).1).1 [] [2] ∧
     ((EagerlyArchiveThread (ArchiveThread initState 1).1).1.nodes 2).data
       = some (ArchiveThread initState 1).1.live ∧
     ∃ inUseL' freeL',
       Inv (RestoreThread (ArchiveThread initState 1).1 2).2.1 freeL' inUseL' ∧
       2 ∈ inUseL' ∧
       (((RestoreThread (ArchiveThread initState 1).1 2).2.1).nodes 2).data
         = some (ArchiveThread initState 1).1.live) :=
  ⟨Inv_archive_init, rfl, rfl, by decide,
   C7_forced_eager (ArchiveThread initState 1).1 [] [] 1 2 2
     Inv_archive_init rfl rfl (by decide)⟩

end V8Threads
